import Mathlib

/-!
Verification of the cii tree-walking interpreter (Rust sources under
`src/`): a shallow embedding of the scanner, parser, value model,
environment chain and evaluator, followed by theorems settling the
specification claims.

Modelling conventions:
 - Rust `f32`/`f64` numbers are idealised as exact rationals (`Rat`); every
   arithmetic fact used by a theorem below is exact in 32-bit floats too.
 - Rust panics are modelled as the `Outcome.panicked` result; `Result::Err`
   is `Outcome.err`; loops and recursion are driven by a structural fuel
   argument whose exhaustion is the distinguished result `Outcome.timeout`.
 - Source strings are treated as their character lists; the Rust code mixes
   `chars().nth` indexing with byte slicing, which agree on ASCII input
   (all inputs exercised here are ASCII).
 - The interpreter's `Rc<RefCell<Environment>>` heap is modelled as a store
   of frames addressed by allocation index; the interpreter state carries
   the store, the current-environment address, the printed output and the
   clock value.
-/

/-- Result of running a piece of the Rust program: a value, a `Result::Err`
string, a panic, or fuel exhaustion (which cannot happen when enough fuel
is supplied). -/
inductive Outcome (α : Type) where
  | ok (val : α)
  | err (msg : String)
  | panicked (msg : String)
  | timeout
  deriving Repr, DecidableEq

/-- Sequencing for state-passing fallible computations: the `?` operator of
the Rust sources (errors, panics and fuel exhaustion all propagate, keeping
the state they stopped in, as the in-place `RefCell` mutations survive an
early return). -/
def obind {α β σ : Type} : Outcome α × σ → (α → σ → Outcome β × σ) → Outcome β × σ
  | (.ok a, s), k => k a s
  | (.err e, s), _ => (.err e, s)
  | (.panicked m, s), _ => (.panicked m, s)
  | (.timeout, s), _ => (.timeout, s)

/-- Token kinds, from `scanner.rs` (`TokenType`). -/
inductive TokenType where
  | LeftParen | RightParen | LeftBrace | RightBrace
  | Comma | Dot | Minus | Plus | SemiColon | Slash | Star
  | Bang | BangEqual | Equal | EqualEqual
  | Greater | GreaterEqual | Less | LessEqual
  | Identifier | StringLit | Number
  | And | Class | Else | False | Fun | For | If | Nil | Or
  | Print | Return | Super | This | True | Var | While
  | Eof
  deriving Repr, DecidableEq

/-- `Display`/`Debug` rendering of a token kind (`scanner.rs` derives
`Debug` and routes `Display` through it): the constructor name. -/
def TokenType.str : TokenType → String
  | .LeftParen => "LeftParen" | .RightParen => "RightParen"
  | .LeftBrace => "LeftBrace" | .RightBrace => "RightBrace"
  | .Comma => "Comma" | .Dot => "Dot" | .Minus => "Minus" | .Plus => "Plus"
  | .SemiColon => "SemiColon" | .Slash => "Slash" | .Star => "Star"
  | .Bang => "Bang" | .BangEqual => "BangEqual" | .Equal => "Equal"
  | .EqualEqual => "EqualEqual" | .Greater => "Greater"
  | .GreaterEqual => "GreaterEqual" | .Less => "Less"
  | .LessEqual => "LessEqual" | .Identifier => "Identifier"
  | .StringLit => "StringLit" | .Number => "Number"
  | .And => "And" | .Class => "Class" | .Else => "Else" | .False => "False"
  | .Fun => "Fun" | .For => "For" | .If => "If" | .Nil => "Nil"
  | .Or => "Or" | .Print => "Print" | .Return => "Return"
  | .Super => "Super" | .This => "This" | .True => "True" | .Var => "Var"
  | .While => "While" | .Eof => "Eof"

/-- Literal payload of a token (`scanner.rs` `LiteralValue`; renamed here to
avoid clashing with the runtime value type of `expr.rs`). `i64` is `Int`
with the overflow bound enforced at parse time; `f64` is idealised as an
exact rational. -/
inductive ScanLiteral where
  | IntValue (v : Int)
  | FValue (v : Rat)
  | StringValue (s : String)
  | IdentifierValue (s : String)
  deriving Repr, DecidableEq

/-- Token, from `scanner.rs`. -/
structure Token where
  token_type : TokenType
  lexeme : String
  literal : Option ScanLiteral
  line_num : Nat
  deriving Repr, DecidableEq

/-- `scanner.rs` `is_digit`: the Rust code casts the char to `u8` (low-byte
truncation) before comparing. -/
def is_digit (ch : Char) : Bool :=
  48 ≤ ch.toNat % 256 && ch.toNat % 256 ≤ 57

/-- `scanner.rs` `is_alpha` (with the same `u8` truncation). -/
def is_alpha (ch : Char) : Bool :=
  let u := ch.toNat % 256
  (97 ≤ u && u ≤ 122) || (65 ≤ u && u ≤ 90) || u == 95

/-- `scanner.rs` `is_alpha_numeric`. -/
def is_alpha_numeric (ch : Char) : Bool :=
  is_digit ch || is_alpha ch

/-- `scanner.rs` `get_keywords_hashmap`, as a lookup function. -/
def keyword_lookup : String → Option TokenType
  | "and" => some .And
  | "or" => some .Or
  | "print" => some .Print
  | "var" => some .Var
  | "while" => some .While
  | "true" => some .True
  | "false" => some .False
  | "fun" => some .Fun
  | "for" => some .For
  | "if" => some .If
  | "nil" => some .Nil
  | "return" => some .Return
  | "super" => some .Super
  | "this" => some .This
  | "class" => some .Class
  | "else" => some .Else
  | _ => none

/-- Scanner state, from `scanner.rs` (the keyword table is the fixed
function above). -/
structure Scanner where
  source : List Char
  tokens : List Token
  start : Nat
  current : Nat
  line : Nat
  deriving Repr

def Scanner.new (source : String) : Scanner :=
  ⟨source.data, [], 0, 0, 1⟩

def Scanner.is_at_end (s : Scanner) : Bool :=
  s.current ≥ s.source.length

/-- `peek`: `'\0'` at end of input. -/
def Scanner.peek (s : Scanner) : Char :=
  if s.is_at_end then '\x00' else s.source.getD s.current '\x00'

def Scanner.peek_next (s : Scanner) : Char :=
  if s.current + 1 ≥ s.source.length then '\x00'
  else s.source.getD (s.current + 1) '\x00'

/-- `advance` reads the current char and moves past it. The Rust code
indexes unconditionally (a panic out of bounds); every call site guards
with `is_at_end`-derived conditions, so the default char is never read. -/
def Scanner.advance (s : Scanner) : Char × Scanner :=
  (s.source.getD s.current '\x00', { s with current := s.current + 1 })

def Scanner.char_match (s : Scanner) (ch : Char) : Bool × Scanner :=
  if s.is_at_end then (false, s)
  else if s.source.getD s.current '\x00' ≠ ch then (false, s)
  else (true, { s with current := s.current + 1 })

/-- The verbatim source slice `source[start..current]`. -/
def Scanner.slice (s : Scanner) : String :=
  String.mk ((s.source.drop s.start).take (s.current - s.start))

def Scanner.add_token_lit (s : Scanner) (tt : TokenType)
    (lit : Option ScanLiteral) : Scanner :=
  { s with tokens := s.tokens ++ [⟨tt, s.slice, lit, s.line⟩] }

def Scanner.add_token (s : Scanner) (tt : TokenType) : Scanner :=
  s.add_token_lit tt none

/-- The `while is_digit(self.peek())` consumption loop of `number`. Fuel is
always called with at least the remaining input length, which bounds the
possible iterations. -/
def digits_loop : Nat → Scanner → Scanner
  | 0, s => s
  | fuel+1, s =>
    if is_digit s.peek then digits_loop fuel (s.advance).2 else s

/-- The identifier consumption loop. -/
def ident_loop : Nat → Scanner → Scanner
  | 0, s => s
  | fuel+1, s =>
    if is_alpha_numeric s.peek then ident_loop fuel (s.advance).2 else s

/-- The string-literal consumption loop (embedded newlines advance the line
counter). -/
def string_loop : Nat → Scanner → Scanner
  | 0, s => s
  | fuel+1, s =>
    if s.peek ≠ '"' ∧ ¬ s.is_at_end then
      let s := if s.peek = '\n' then { s with line := s.line + 1 } else s
      string_loop fuel (s.advance).2
    else s

/-- The `//` line-comment consumption loop. -/
def comment_loop : Nat → Scanner → Scanner
  | 0, s => s
  | fuel+1, s =>
    if s.peek = '\n' ∨ s.is_at_end then s
    else comment_loop fuel (s.advance).2

def digits_to_nat (cs : List Char) : Nat :=
  cs.foldl (fun a c => a * 10 + (c.toNat - 48)) 0

/-- `substring.parse::<i64>()` on the scanned digit run: the run is
non-empty and all digits, so the only failure is the `i64` overflow. -/
def parse_i64 (str : String) : Except String Int :=
  if str.data ≠ [] ∧ str.data.all (fun c => is_digit c) then
    let v := digits_to_nat str.data
    if v ≤ 9223372036854775807 then .ok (Int.ofNat v)
    else .error "number too large to fit in target type"
  else .error "invalid digit found in string"

/-- `substring.parse::<f64>()` on a scanned `digits.digits` run, idealised
as the exact decimal value (the `f64` rounding step is not modelled; no
claim below depends on the numeric value of a float literal). -/
def parse_f64 (str : String) : Except String Rat :=
  let ip := str.data.takeWhile (fun c => c ≠ '.')
  let fp := (str.data.dropWhile (fun c => c ≠ '.')).drop 1
  if ip ≠ [] ∧ fp ≠ [] ∧ ip.all (fun c => is_digit c) ∧
      fp.all (fun c => is_digit c) then
    .ok ((digits_to_nat ip : Rat) + (digits_to_nat fp : Rat) / 10 ^ fp.length)
  else .error "invalid float literal"

/-- `scanner.rs` `Scanner::number`: consume the digit run; if a `.` is
followed by another digit consume the fraction and emit an `FValue` number
token, else emit an `IntValue` number token. -/
def number (s : Scanner) : Outcome Unit × Scanner :=
  let s := digits_loop (s.source.length - s.current) s
  if s.peek = '.' ∧ is_digit s.peek_next then
    let s := (s.advance).2
    let s := digits_loop (s.source.length - s.current) s
    match parse_f64 s.slice with
    | .ok v => (.ok (), s.add_token_lit .Number (some (.FValue v)))
    | .error e =>
      (.err ("Couldn\x27t parse number at line " ++ Nat.repr s.line ++ ": " ++ e), s)
  else
    match parse_i64 s.slice with
    | .ok v => (.ok (), s.add_token_lit .Number (some (.IntValue v)))
    | .error e =>
      (.err ("Couldn\x27t parse number at line " ++ Nat.repr s.line ++ ": " ++ e), s)

/-- `scanner.rs` `Scanner::string`: the literal payload excludes the
surrounding quotes. -/
def string (s : Scanner) : Outcome Unit × Scanner :=
  let s := string_loop (s.source.length - s.current) s
  if s.is_at_end then (.err "Unterminated string", s)
  else
    let s := (s.advance).2
    let value := String.mk ((s.source.drop (s.start + 1)).take (s.current - 1 - (s.start + 1)))
    (.ok (), s.add_token_lit .StringLit (some (.StringValue value)))

/-- `scanner.rs` `Scanner::identifier`: consume the run, then the
reserved-word table decides the kind. -/
def identifier (s : Scanner) : Scanner :=
  let s := ident_loop (s.source.length - s.current) s
  match keyword_lookup s.slice with
  | some t => s.add_token t
  | none => s.add_token .Identifier

/-- `scanner.rs` `Scanner::scan_token`. The Rust `match` has two
unreachable duplicate arms for `'+'`/`'-'` and an unreachable trailing
error arm; first-match semantics keeps the embedding faithful. -/
def scan_token (s0 : Scanner) : Outcome Unit × Scanner :=
  let (c, s) := s0.advance
  match c with
  | '(' => (.ok (), s.add_token .LeftParen)
  | ')' => (.ok (), s.add_token .RightParen)
  | '{' => (.ok (), s.add_token .LeftBrace)
  | '}' => (.ok (), s.add_token .RightBrace)
  | ',' => (.ok (), s.add_token .Comma)
  | '.' => (.ok (), s.add_token .Dot)
  | '-' => (.ok (), s.add_token .Minus)
  | '+' => (.ok (), s.add_token .Plus)
  | ';' => (.ok (), s.add_token .SemiColon)
  | '*' => (.ok (), s.add_token .Star)
  | '!' =>
    let (m, s) := s.char_match '='
    (.ok (), s.add_token (if m then .BangEqual else .Bang))
  | '=' =>
    let (m, s) := s.char_match '='
    (.ok (), s.add_token (if m then .EqualEqual else .Equal))
  | '<' =>
    let (m, s) := s.char_match '='
    (.ok (), s.add_token (if m then .LessEqual else .Less))
  | '>' =>
    let (m, s) := s.char_match '='
    (.ok (), s.add_token (if m then .GreaterEqual else .Greater))
  | '/' =>
    let (m, s) := s.char_match '/'
    if m then (.ok (), comment_loop (s.source.length - s.current) s)
    else (.ok (), s.add_token .Slash)
  | ' ' => (.ok (), s)
  | '\r' => (.ok (), s)
  | '\t' => (.ok (), s)
  | '\n' => (.ok (), { s with line := s.line + 1 })
  | '"' => string s
  | c =>
    if is_digit c then number s
    else if is_alpha c then (.ok (), identifier s)
    else (.err ("unrecognised char at line " ++ Nat.repr s.line ++ ": " ++ String.mk [c]), s)

/-- The outer scanning loop of `scan_tokens`, accumulating error messages.
Each iteration consumes at least one character, so fuel
`source.length + 1` suffices. -/
def scan_loop : Nat → Scanner → List String → Outcome (List String × Scanner)
  | 0, _, _ => .timeout
  | fuel+1, s, errors =>
    if s.is_at_end then .ok (errors, s)
    else
      let s := { s with start := s.current }
      match scan_token s with
      | (.ok _, s') => scan_loop fuel s' errors
      | (.err msg, s') => scan_loop fuel s' (errors ++ [msg])
      | (.panicked m, _) => .panicked m
      | (.timeout, _) => .timeout

/-- `scanner.rs` `Scanner::scan_tokens`: scan the whole source, append the
`Eof` token, and fail with the newline-joined error list if any error
occurred. -/
def scan_tokens (source : String) : Outcome (List Token) :=
  let s := Scanner.new source
  match scan_loop (s.source.length + 1) s [] with
  | .ok (errors, s') =>
    let s'' := { s' with tokens := s'.tokens ++ [(⟨.Eof, "", none, s'.line⟩ : Token)] }
    if errors ≠ [] then
      .err (String.join (errors.map (fun e => e ++ "\n")))
    else .ok s''.tokens
  | .err e => .err e
  | .panicked m => .panicked m
  | .timeout => .timeout

/-!  ## AST and runtime values (`expr.rs`, `stmt.rs`)

The Rust `Callable` variant stores an `Rc<dyn Fn>`; in this repository
every callable is either the built-in `clock` or a user function closure
built by the `Stmt::Function` arm of the interpreter, so the function
payload is defunctionalised into `CallableImpl` and interpreted by
`call_fun` below, which replays the exact body of those two closures.  -/

mutual

/-- Runtime values (`expr.rs` `LiteralValue`); `f32` idealised as `Rat`. -/
inductive LiteralValue where
  | Number (x : Rat)
  | StringValue (s : String)
  | True
  | False
  | Nil
  | Callable (name : String) (arity : Nat) (fn : CallableImpl)

/-- The two invocation procedures that occur in the program: `clock_impl`
(`interpreter.rs`) and the `fun_impl` closure built by `Stmt::Function`
(which captures the function name, parameter tokens and body). -/
inductive CallableImpl where
  | clockImpl
  | funImpl (name : String) (params : List Token) (body : List Stmt)

/-- Expressions (`expr.rs` `Expr`). -/
inductive Expr where
  | Assign (name : Token) (value : Expr)
  | Binary (left : Expr) (operator : Token) (right : Expr)
  | Call (callee : Expr) (paren : Token) (arguments : List Expr)
  | Grouping (expression : Expr)
  | Literal (value : LiteralValue)
  | Logical (left : Expr) (operator : Token) (right : Expr)
  | Unary (operator : Token) (right : Expr)
  | Variable (name : Token)

/-- Statements (`stmt.rs` `Stmt`). The Rust `Var` field is named
`initializer` and `IfStmt`'s branch field `then`; they are renamed `init`
and `then_s` here (`then` is a Lean keyword). -/
inductive Stmt where
  | Expression (expression : Expr)
  | Print (expression : Expr)
  | Var (name : Token) (init : Expr)
  | Block (statements : List Stmt)
  | IfStmt (predicate : Expr) (then_s : Stmt) (els : Option Stmt)
  | WhileStmt (condition : Expr) (body : Stmt)
  | Function (name : Token) (params : List Token) (body : List Stmt)

end

/-- The custom `PartialEq` of `expr.rs`: structural on primitives, and two
callables are equal iff they share name and arity (the`fun` payload is
ignored). -/
def lv_eq : LiteralValue → LiteralValue → Bool
  | .Number x, .Number y => x == y
  | .Callable n a _, .Callable n2 a2 _ => n == n2 && a == a2
  | .StringValue x, .StringValue y => x == y
  | .True, .True => true
  | .False, .False => true
  | .Nil, .Nil => true
  | _, _ => false

/-- Rendering of a `Number`. Rust prints the shortest round-trip `f32`
decimal; on integral values (the only ones any claim exercises) the two
agree. -/
def rat_display (x : Rat) : String :=
  if x.den = 1 then toString x.num
  else toString x.num ++ "/" ++ toString x.den

/-- `expr.rs` `LiteralValue::to_string`. -/
def LiteralValue.to_string : LiteralValue → String
  | .Number x => rat_display x
  | .StringValue x => "\"" ++ x ++ "\""
  | .True => "true"
  | .False => "false"
  | .Nil => "nil"
  | .Callable name arity _ => name ++ "/" ++ Nat.repr arity

/-- `expr.rs` `LiteralValue::to_type`. -/
def LiteralValue.to_type : LiteralValue → String
  | .Number _ => "Number"
  | .StringValue _ => "String"
  | .True => "Boolean"
  | .False => "Boolean"
  | .Nil => "Nil"
  | .Callable _ _ _ => "Callable"

/-- `expr.rs` `unwrap_as_f32`: panics unless the payload is `FValue`
(in particular on the `IntValue` payload integer literals carry). -/
def unwrap_as_f32 : Option ScanLiteral → Outcome Rat
  | some (.FValue x) => .ok x
  | _ => .panicked "could not unwrap as f32"

/-- `expr.rs` `unwrap_as_string`. -/
def unwrap_as_string : Option ScanLiteral → Outcome String
  | some (.StringValue s) => .ok s
  | _ => .panicked "could not unwrap as string"

/-- `expr.rs` `LiteralValue::from_token` (the catch-all arm panics with the
token's `Debug` rendering; its exact text is approximated, and no claim
exercises it). -/
def from_token (token : Token) : Outcome LiteralValue :=
  match token.token_type with
  | .Number =>
    match unwrap_as_f32 token.literal with
    | .ok x => .ok (.Number x)
    | .err e => .err e
    | .panicked m => .panicked m
    | .timeout => .timeout
  | .StringLit =>
    match unwrap_as_string token.literal with
    | .ok s => .ok (.StringValue s)
    | .err e => .err e
    | .panicked m => .panicked m
    | .timeout => .timeout
  | .False => .ok .False
  | .True => .ok .True
  | .Nil => .ok .Nil
  | _ => .panicked ("could not create LiteralValue from " ++ token.token_type.str ++ " " ++ token.lexeme)

/-- `expr.rs` `LiteralValue::from_bool`. -/
def from_bool (b : Bool) : LiteralValue :=
  if b then .True else .False

/-- `expr.rs` `LiteralValue::is_falsy`: panics on a callable. Rust tests
the byte length of a string against 0; character count agrees. -/
def is_falsy : LiteralValue → Outcome LiteralValue
  | .Number x => if x == 0 then .ok .True else .ok .False
  | .StringValue s => if s.length == 0 then .ok .True else .ok .False
  | .True => .ok .False
  | .False => .ok .True
  | .Nil => .ok .True
  | .Callable _ _ _ => .panicked "cannot use callable as truthy value"

/-- `expr.rs` `LiteralValue::is_truthy`: panics on a callable. -/
def is_truthy : LiteralValue → Outcome LiteralValue
  | .Number x => if x == 0 then .ok .False else .ok .True
  | .StringValue s => if s.length == 0 then .ok .False else .ok .True
  | .True => .ok .True
  | .False => .ok .False
  | .Nil => .ok .False
  | .Callable _ _ _ => .panicked "cannot use callable as truthy value"

/-- Byte-lexicographic `<` on Rust strings (agrees with character
lexicographic order on ASCII, and all compared strings here are ASCII). -/
def chars_lt : List Char → List Char → Bool
  | _, [] => false
  | [], _ :: _ => true
  | x :: xs, y :: ys =>
    if x < y then true else if y < x then false else chars_lt xs ys

def str_lt (a b : String) : Bool := chars_lt a.data b.data

/-!  ## Parser (`parser.rs`)

The parser state is the token vector plus the `current` index. Indexing in
the Rust code is unguarded vector indexing; with an `Eof`-terminated token
list the index never leaves the vector, and the embedding returns a
default `Eof` token out of bounds, which makes every function total with
identical behaviour on such inputs. Every recursive function takes a
structural fuel argument; fuel exhaustion is `Outcome.timeout`. -/

structure Prs where
  tokens : List Token
  current : Nat
  deriving Repr

def eof_token : Token := ⟨.Eof, "", none, 0⟩

def Prs.peek (p : Prs) : Token := p.tokens.getD p.current eof_token

def Prs.previous (p : Prs) : Token := p.tokens.getD (p.current - 1) eof_token

def Prs.is_at_end (p : Prs) : Bool := p.peek.token_type == .Eof

/-- `advance`: move unless at `Eof`, then return `previous()`. -/
def Prs.advance (p : Prs) : Token × Prs :=
  if ¬ p.is_at_end then
    let p' := { p with current := p.current + 1 }
    (p'.previous, p')
  else (p.previous, p)

def Prs.check (p : Prs) (t : TokenType) : Bool := p.peek.token_type == t

def Prs.match_token (p : Prs) (t : TokenType) : Bool × Prs :=
  if p.is_at_end then (false, p)
  else if p.peek.token_type == t then (true, (p.advance).2)
  else (false, p)

def Prs.match_tokens (p : Prs) : List TokenType → Bool × Prs
  | [] => (false, p)
  | t :: rest =>
    let (m, p') := p.match_token t
    if m then (true, p') else p'.match_tokens rest

def Prs.consume (p : Prs) (t : TokenType) (msg : String) : Outcome Token × Prs :=
  if p.peek.token_type == t then
    let (tok, p') := p.advance
    (.ok tok, p')
  else (.err msg, p)

/-- The loop of `synchronize`: consume until just past a `;` or until the
next statement keyword. Each iteration advances, so `tokens.length + 1`
fuel suffices. -/
def sync_loop : Nat → Prs → Prs
  | 0, p => p
  | fuel+1, p =>
    if p.is_at_end then p
    else if p.previous.token_type == .SemiColon then p
    else
      match p.peek.token_type with
      | .Class => p | .Fun => p | .Var => p | .For => p
      | .If => p | .While => p | .Print => p | .Return => p
      | _ => sync_loop fuel (p.advance).2

def synchronize (p : Prs) : Prs :=
  sync_loop (p.tokens.length + 1) ((p.advance).2)

mutual

/-- The accumulation loop of `Parser::parse`: collect statements, and on a
declaration error record it, synchronize and continue. -/
def parse_loop : Nat → Prs → List Stmt → List String → Outcome (List Stmt) × Prs
  | 0, p, _, _ => (.timeout, p)
  | fuel+1, p, stmts, errs =>
    if ¬ p.is_at_end then
      match declaration fuel p with
      | (.ok s, p') => parse_loop fuel p' (stmts ++ [s]) errs
      | (.err e, p') => parse_loop fuel (synchronize p') stmts (errs ++ [e])
      | (.panicked m, p') => (.panicked m, p')
      | (.timeout, p') => (.timeout, p')
    else
      if errs.length ≠ 0 then (.err (String.intercalate "\n" errs), p)
      else (.ok stmts, p)

def declaration : Nat → Prs → Outcome Stmt × Prs
  | 0, p => (.timeout, p)
  | fuel+1, p =>
    let (m, p) := p.match_token .Var
    if m then var_declaration fuel p
    else
      let (m2, p) := p.match_token .Fun
      if m2 then function fuel p
      else statement fuel p

/-- The parameter-list loop of `Parser::function` (the 255 check is at the
head of the loop, before the next parameter is consumed). -/
def params_loop : Nat → Prs → List Token → Outcome (List Token) × Prs
  | 0, p, _ => (.timeout, p)
  | fuel+1, p, params =>
    if params.length ≥ 255 then
      (.err ("Line " ++ Nat.repr p.peek.line_num ++ ": can\x27t have more than 255 parameters"), p)
    else
      obind (p.consume .Identifier "Expected parameter name") fun param p =>
      let params := params ++ [param]
      let (m, p) := p.match_token .Comma
      if m then params_loop fuel p params else (.ok params, p)

/-- `Parser::function` (the only `FunctionKind` is `Function`, whose
`Debug` rendering appears in the messages). -/
def function : Nat → Prs → Outcome Stmt × Prs
  | 0, p => (.timeout, p)
  | fuel+1, p =>
    obind (p.consume .Identifier "Expected Function name") fun name p =>
    obind (p.consume .LeftParen "Expected \x27(\x27 after Function name") fun _ p =>
    obind (if p.check .RightParen then (.ok [], p) else params_loop fuel p []) fun params p =>
    obind (p.consume .RightParen "Expected \x27)\x27 after parameters.") fun _ p =>
    obind (p.consume .LeftBrace "Expected \x27\x7b\x27 before Function body.") fun _ p =>
    obind (block_statement fuel p) fun blk p =>
    match blk with
    | .Block statements => (.ok (.Function name params statements), p)
    | _ => (.err "Expected body for Function", p)

def var_declaration : Nat → Prs → Outcome Stmt × Prs
  | 0, p => (.timeout, p)
  | fuel+1, p =>
    obind (p.consume .Identifier "Expected variable name") fun token p =>
    let (m, p) := p.match_token .Equal
    if m then
      obind (expression fuel p) fun init_e p =>
      obind (p.consume .SemiColon "Expected \x27;\x27 after variable declaration") fun _ p =>
      (.ok (.Var token init_e), p)
    else
      obind (p.consume .SemiColon "Expected \x27;\x27 after variable declaration") fun _ p =>
      (.ok (.Var token (.Literal .Nil)), p)

def statement : Nat → Prs → Outcome Stmt × Prs
  | 0, p => (.timeout, p)
  | fuel+1, p =>
    let (m, p) := p.match_token .Print
    if m then print_statement fuel p
    else
      let (m, p) := p.match_token .LeftBrace
      if m then block_statement fuel p
      else
        let (m, p) := p.match_token .If
        if m then if_statement fuel p
        else
          let (m, p) := p.match_token .While
          if m then while_statement fuel p
          else
            let (m, p) := p.match_token .For
            if m then for_statement fuel p
            else expression_statement fuel p

/-- The initializer slot of `for_statement` (leading `;`, `var`
declaration, or expression statement). -/
def for_init : Nat → Prs → Outcome (Option Stmt) × Prs
  | 0, p => (.timeout, p)
  | fuel+1, p =>
    let (m, p) := p.match_token .SemiColon
    if m then (.ok none, p)
    else
      let (mv, p) := p.match_token .Var
      if mv then obind (var_declaration fuel p) fun d p => (.ok (some d), p)
      else obind (expression_statement fuel p) fun d p => (.ok (some d), p)

/-- The condition slot of `for_statement`: parse an expression unless the
next token is `;`. -/
def for_cond : Nat → Prs → Outcome (Option Expr) × Prs
  | 0, p => (.timeout, p)
  | fuel+1, p =>
    if ¬ p.check .SemiColon then
      obind (expression fuel p) fun e p => (.ok (some e), p)
    else (.ok none, p)

/-- The increment slot of `for_statement`. The Rust code tests the next
token against `;` here as well, although the slot is terminated by `)` —
so an omitted increment sends the parser into `expression()` at the `)`
token. -/
def for_incr : Nat → Prs → Outcome (Option Expr) × Prs
  | 0, p => (.timeout, p)
  | fuel+1, p =>
    if ¬ p.check .SemiColon then
      obind (expression fuel p) fun e p => (.ok (some e), p)
    else (.ok none, p)

/-- `Parser::for_statement`: parse the three clauses and the body, then
desugar into `while` (and blocks). -/
def for_statement : Nat → Prs → Outcome Stmt × Prs
  | 0, p => (.timeout, p)
  | fuel+1, p =>
    obind (p.consume .LeftParen "Expected \x27(\x27 after \x27for\x27.") fun _ p =>
    obind (for_init fuel p) fun init_o p =>
    obind (for_cond fuel p) fun cond_o p =>
    obind (p.consume .SemiColon "Expected \x27;\x27 after loop condition") fun _ p =>
    obind (for_incr fuel p) fun incr_o p =>
    obind (p.consume .RightParen "Expected \x27)\x27 after for clauses") fun _ p =>
    obind (statement fuel p) fun body0 p =>
    let body1 : Stmt :=
      match incr_o with
      | some inc => .Block [body0, .Expression inc]
      | none => body0
    let cond : Expr :=
      match cond_o with
      | none => .Literal .True
      | some c => c
    let body2 : Stmt := .WhileStmt cond body1
    let body3 : Stmt :=
      match init_o with
      | some i => .Block [i, body2]
      | none => body2
    (.ok body3, p)

def while_statement : Nat → Prs → Outcome Stmt × Prs
  | 0, p => (.timeout, p)
  | fuel+1, p =>
    obind (p.consume .LeftParen "Expected \x27(\x27.") fun _ p =>
    obind (expression fuel p) fun condition p =>
    obind (p.consume .RightParen "Expected \x27)\x27.") fun _ p =>
    obind (statement fuel p) fun body p =>
    (.ok (.WhileStmt condition body), p)

def if_statement : Nat → Prs → Outcome Stmt × Prs
  | 0, p => (.timeout, p)
  | fuel+1, p =>
    obind (p.consume .LeftParen "Expected \x27(\x27.") fun _ p =>
    obind (expression fuel p) fun predicate p =>
    obind (p.consume .RightParen "Expected \x27)\x27") fun _ p =>
    obind (statement fuel p) fun then_s p =>
    let (m, p) := p.match_token .Else
    if m then
      obind (statement fuel p) fun els p =>
      (.ok (.IfStmt predicate then_s (some els)), p)
    else (.ok (.IfStmt predicate then_s none), p)

/-- The declaration loop of `block_statement` (until `}` or `Eof`; a
declaration error propagates out via `?`). -/
def block_loop : Nat → Prs → List Stmt → Outcome (List Stmt) × Prs
  | 0, p, _ => (.timeout, p)
  | fuel+1, p, acc =>
    if ¬ p.check .RightBrace ∧ ¬ p.is_at_end then
      obind (declaration fuel p) fun d p => block_loop fuel p (acc ++ [d])
    else (.ok acc, p)

def block_statement : Nat → Prs → Outcome Stmt × Prs
  | 0, p => (.timeout, p)
  | fuel+1, p =>
    obind (block_loop fuel p []) fun statements p =>
    obind (p.consume .RightBrace "Expected \x27\x7d\x27.") fun _ p =>
    (.ok (.Block statements), p)

def print_statement : Nat → Prs → Outcome Stmt × Prs
  | 0, p => (.timeout, p)
  | fuel+1, p =>
    obind (expression fuel p) fun expr p =>
    obind (p.consume .SemiColon "Expected \x27;\x27 after value.") fun _ p =>
    (.ok (.Print expr), p)

def expression_statement : Nat → Prs → Outcome Stmt × Prs
  | 0, p => (.timeout, p)
  | fuel+1, p =>
    obind (expression fuel p) fun expr p =>
    obind (p.consume .SemiColon "Expected \x27;\x27 after value.") fun _ p =>
    (.ok (.Expression expr), p)

def expression : Nat → Prs → Outcome Expr × Prs
  | 0, p => (.timeout, p)
  | fuel+1, p => assignment fuel p

/-- `Parser::assignment`: parse the LHS, and only after consuming `=` check
that it is a bare variable. -/
def assignment : Nat → Prs → Outcome Expr × Prs
  | 0, p => (.timeout, p)
  | fuel+1, p =>
    obind (logic_or fuel p) fun expr p =>
    let (m, p) := p.match_token .Equal
    if m then
      obind (assignment fuel p) fun value p =>
      match expr with
      | .Variable name => (.ok (.Assign name value), p)
      | _ => (.err "invalid assignment target.", p)
    else (.ok expr, p)

def logic_or : Nat → Prs → Outcome Expr × Prs
  | 0, p => (.timeout, p)
  | fuel+1, p =>
    obind (logic_and fuel p) fun e p => or_loop fuel e p

def or_loop : Nat → Expr → Prs → Outcome Expr × Prs
  | 0, _, p => (.timeout, p)
  | fuel+1, e, p =>
    let (m, p) := p.match_token .Or
    if m then
      let op := p.previous
      obind (logic_and fuel p) fun right p =>
      or_loop fuel (.Logical e op right) p
    else (.ok e, p)

def logic_and : Nat → Prs → Outcome Expr × Prs
  | 0, p => (.timeout, p)
  | fuel+1, p =>
    obind (equality fuel p) fun e p => and_loop fuel e p

def and_loop : Nat → Expr → Prs → Outcome Expr × Prs
  | 0, _, p => (.timeout, p)
  | fuel+1, e, p =>
    let (m, p) := p.match_token .And
    if m then
      let op := p.previous
      obind (equality fuel p) fun right p =>
      and_loop fuel (.Logical e op right) p
    else (.ok e, p)

def equality : Nat → Prs → Outcome Expr × Prs
  | 0, p => (.timeout, p)
  | fuel+1, p =>
    obind (comparison fuel p) fun e p => eq_loop fuel e p

def eq_loop : Nat → Expr → Prs → Outcome Expr × Prs
  | 0, _, p => (.timeout, p)
  | fuel+1, e, p =>
    let (m, p) := p.match_tokens [.BangEqual, .EqualEqual]
    if m then
      let op := p.previous
      obind (comparison fuel p) fun rhs p =>
      eq_loop fuel (.Binary e op rhs) p
    else (.ok e, p)

def comparison : Nat → Prs → Outcome Expr × Prs
  | 0, p => (.timeout, p)
  | fuel+1, p =>
    obind (term fuel p) fun e p => cmp_loop fuel e p

def cmp_loop : Nat → Expr → Prs → Outcome Expr × Prs
  | 0, _, p => (.timeout, p)
  | fuel+1, e, p =>
    let (m, p) := p.match_tokens [.Greater, .GreaterEqual, .Less, .LessEqual]
    if m then
      let op := p.previous
      obind (term fuel p) fun rhs p =>
      cmp_loop fuel (.Binary e op rhs) p
    else (.ok e, p)

def term : Nat → Prs → Outcome Expr × Prs
  | 0, p => (.timeout, p)
  | fuel+1, p =>
    obind (factor fuel p) fun e p => term_loop fuel e p

def term_loop : Nat → Expr → Prs → Outcome Expr × Prs
  | 0, _, p => (.timeout, p)
  | fuel+1, e, p =>
    let (m, p) := p.match_tokens [.Minus, .Plus]
    if m then
      let op := p.previous
      obind (factor fuel p) fun rhs p =>
      term_loop fuel (.Binary e op rhs) p
    else (.ok e, p)

def factor : Nat → Prs → Outcome Expr × Prs
  | 0, p => (.timeout, p)
  | fuel+1, p =>
    obind (unary fuel p) fun e p => factor_loop fuel e p

def factor_loop : Nat → Expr → Prs → Outcome Expr × Prs
  | 0, _, p => (.timeout, p)
  | fuel+1, e, p =>
    let (m, p) := p.match_tokens [.Slash, .Star]
    if m then
      let op := p.previous
      obind (unary fuel p) fun rhs p =>
      factor_loop fuel (.Binary e op rhs) p
    else (.ok e, p)

def unary : Nat → Prs → Outcome Expr × Prs
  | 0, p => (.timeout, p)
  | fuel+1, p =>
    let (m, p) := p.match_tokens [.Bang, .Minus]
    if m then
      let op := p.previous
      obind (unary fuel p) fun rhs p =>
      (.ok (.Unary op rhs), p)
    else call fuel p

def call : Nat → Prs → Outcome Expr × Prs
  | 0, p => (.timeout, p)
  | fuel+1, p =>
    obind (primary fuel p) fun e p => call_loop fuel e p

def call_loop : Nat → Expr → Prs → Outcome Expr × Prs
  | 0, _, p => (.timeout, p)
  | fuel+1, e, p =>
    let (m, p) := p.match_token .LeftParen
    if m then
      obind (finish_call fuel e p) fun e' p => call_loop fuel e' p
    else (.ok e, p)

/-- `Parser::finish_call`. The 255-argument check runs right after pushing
an argument (so it fires on the 255th argument); the recorded `paren`
token is a freshly made `LeftParen` with empty lexeme and line 0. -/
def finish_call : Nat → Expr → Prs → Outcome Expr × Prs
  | 0, _, p => (.timeout, p)
  | fuel+1, callee, p =>
    obind (if p.check .RightParen then (.ok [], p) else fc_loop fuel [] p) fun args p =>
    obind (p.consume .RightParen "Expect \x27)\x27 after function arguments") fun _ p =>
    (.ok (.Call callee ⟨.LeftParen, "", none, 0⟩ args), p)

def fc_loop : Nat → List Expr → Prs → Outcome (List Expr) × Prs
  | 0, _, p => (.timeout, p)
  | fuel+1, args, p =>
    obind (expression fuel p) fun arg p =>
    let args := args ++ [arg]
    if args.length ≥ 255 then
      (.err ("line: " ++ Nat.repr p.peek.line_num ++ " cannot have more than 255 arguments"), p)
    else
      let (m, p) := p.match_token .Comma
      if m then fc_loop fuel args p else (.ok args, p)

def primary : Nat → Prs → Outcome Expr × Prs
  | 0, p => (.timeout, p)
  | fuel+1, p =>
    let token := p.peek
    match token.token_type with
    | .LeftParen =>
      let p := (p.advance).2
      obind (expression fuel p) fun e p =>
      obind (p.consume .RightParen "Expected \x27)\x27") fun _ p =>
      (.ok (.Grouping e), p)
    | .False | .True | .Nil | .Number | .StringLit =>
      let p := (p.advance).2
      match from_token token with
      | .ok v => (.ok (.Literal v), p)
      | .err e => (.err e, p)
      | .panicked m => (.panicked m, p)
      | .timeout => (.timeout, p)
    | .Identifier =>
      let p := (p.advance).2
      (.ok (.Variable p.previous), p)
    | _ => (.err "Expected expression", p)

end

/-- `Parser::parse` on a token list. -/
def parse (fuel : Nat) (tokens : List Token) : Outcome (List Stmt) × Prs :=
  parse_loop fuel ⟨tokens, 0⟩ [] []

/-!  ## Environment (`environment.rs` is not among the sources)

The module `environment.rs` is declared in `main.rs` but its file is not
present; the definitions below are modelled from the specification's
Environment section. The `Rc<RefCell<Environment>>` sharing is modelled by
a store of frames addressed by allocation index; an `enclosing` link is an
address of an earlier frame, so chains are acyclic and every walk
terminates within `store.length` steps. -/

/-- Modelled from the spec: an environment frame — a mapping from names to
values (keys unique within a frame) plus an optional enclosing parent
reference (`none` at the globals frame). -/
structure Frame where
  values : List (String × LiteralValue)
  enclosing : Option Nat

abbrev Store := List Frame

/-- Modelled from the spec: lookup of a name in one frame's mapping. -/
def frame_get : List (String × LiteralValue) → String → Option LiteralValue
  | [], _ => none
  | (k, v) :: rest, name => if k = name then some v else frame_get rest name

/-- Modelled from the spec: insert-or-replace of a binding in one frame's
mapping (keys stay unique; `HashMap::insert` semantics). -/
def frame_set : List (String × LiteralValue) → String → LiteralValue → List (String × LiteralValue)
  | [], name, v => [(name, v)]
  | (k, w) :: rest, name, v =>
    if k = name then (k, v) :: rest else (k, w) :: frame_set rest name v

/-- Modelled from the spec: `get` walks parent-ward until the name is found
or the chain ends. The fuel equals the store size plus one, which bounds
any acyclic chain. -/
def env_get_aux : Nat → Store → Nat → String → Option LiteralValue
  | 0, _, _, _ => none
  | fuel+1, store, addr, name =>
    match store[addr]? with
    | none => none
    | some f =>
      match frame_get f.values name with
      | some v => some v
      | none =>
        match f.enclosing with
        | none => none
        | some parent => env_get_aux fuel store parent name

def env_get (store : Store) (addr : Nat) (name : String) : Option LiteralValue :=
  env_get_aux (store.length + 1) store addr name

/-- Modelled from the spec: `assign` walks parent-ward and mutates the
first frame containing the name; it does not create a new binding, and
reports success. -/
def env_assign_aux : Nat → Store → Nat → String → LiteralValue → Bool × Store
  | 0, store, _, _, _ => (false, store)
  | fuel+1, store, addr, name, v =>
    match store[addr]? with
    | none => (false, store)
    | some f =>
      match frame_get f.values name with
      | some _ => (true, store.set addr { f with values := frame_set f.values name v })
      | none =>
        match f.enclosing with
        | none => (false, store)
        | some parent => env_assign_aux fuel store parent name v

def env_assign (store : Store) (addr : Nat) (name : String) (v : LiteralValue) : Bool × Store :=
  env_assign_aux (store.length + 1) store addr name v

/-- Modelled from the spec: `define` always writes to the addressed
(innermost) frame, shadowing any outer binding. -/
def env_define (store : Store) (addr : Nat) (name : String) (v : LiteralValue) : Store :=
  match store[addr]? with
  | none => store
  | some f => store.set addr { f with values := frame_set f.values name v }

/-!  ## Interpreter (`interpreter.rs`, `Expr::evaluate` of `expr.rs`)  -/

/-- Interpreter state: the frame store (the `Rc<RefCell<_>>` heap), the
interpreter's current-environment pointer, the lines printed so far, and
the ambient clock reading (Rust reads the real UNIX time; it is held
constant here). -/
structure IState where
  store : Store
  current : Nat
  output : List String
  time : Nat

/-- The pure operand-dispatch table of the `Expr::Binary` arm (the Rust
`match` over `(left, operator, right)`, in source order: the mixed
string/number arms precede the string/string arms and catch every
operator). -/
def binary_op (l : LiteralValue) (op : TokenType) (r : LiteralValue) : Outcome LiteralValue :=
  match l, op, r with
  | .Number x, .Plus, .Number y => .ok (.Number (x + y))
  | .Number x, .Minus, .Number y => .ok (.Number (x - y))
  | .Number x, .Star, .Number y => .ok (.Number (x * y))
  | .Number x, .Slash, .Number y => .ok (.Number (x / y))
  | .Number x, .Greater, .Number y => .ok (from_bool (decide (x > y)))
  | .Number x, .GreaterEqual, .Number y => .ok (from_bool (decide (x ≥ y)))
  | .Number x, .Less, .Number y => .ok (from_bool (decide (x < y)))
  | .Number x, .LessEqual, .Number y => .ok (from_bool (decide (x ≤ y)))
  | .Number x, .BangEqual, .Number y => .ok (from_bool (decide (x ≠ y)))
  | .Number x, .EqualEqual, .Number y => .ok (from_bool (decide (x = y)))
  | .StringValue _, opT, .Number _ =>
    .err ("\x27" ++ opT.str ++ "\x27 is not defined for string and number")
  | .Number _, opT, .StringValue _ =>
    .err ("\x27" ++ opT.str ++ "\x27 is not defined for number and string")
  | .StringValue s1, .Plus, .StringValue s2 => .ok (.StringValue (s1 ++ s2))
  | .StringValue s1, .EqualEqual, .StringValue s2 => .ok (from_bool (s1 == s2))
  | .StringValue s1, .BangEqual, .StringValue s2 => .ok (from_bool (s1 != s2))
  | .StringValue s1, .Greater, .StringValue s2 => .ok (from_bool (str_lt s2 s1))
  | .StringValue s1, .GreaterEqual, .StringValue s2 => .ok (from_bool (! str_lt s1 s2))
  | .StringValue s1, .Less, .StringValue s2 => .ok (from_bool (str_lt s1 s2))
  | .StringValue s1, .LessEqual, .StringValue s2 => .ok (from_bool (! str_lt s2 s1))
  | x, ttype, y =>
    .err (ttype.str ++ " is not implemented for operands " ++ x.to_string ++ " and " ++ y.to_string)

mutual

/-- `Expr::evaluate` (`expr.rs`): `env` is the `Rc` clone the caller hands
in; mutations go to the shared store. -/
def evaluate : Nat → Expr → Nat → IState → Outcome LiteralValue × IState
  | 0, _, _, st => (.timeout, st)
  | fuel+1, e, env, st =>
    match e with
    | .Assign name value =>
      obind (evaluate fuel value env st) fun new_value st =>
      let (assign_success, store') := env_assign st.store env name.lexeme new_value
      let st := { st with store := store' }
      if assign_success then (.ok new_value, st)
      else (.err ("variable " ++ name.lexeme ++ " has not been declared"), st)
    | .Variable name =>
      match env_get st.store env name.lexeme with
      | some value => (.ok value, st)
      | none => (.err ("Variable \x27" ++ name.lexeme ++ "\x27 has not been declared"), st)
    | .Literal value => (.ok value, st)
    | .Logical left operator right =>
      match operator.token_type with
      | .Or =>
        obind (evaluate fuel left env st) fun lhs_value st =>
        (match is_truthy lhs_value with
         | .ok lhs_true =>
           if lv_eq lhs_true .True then (.ok lhs_value, st)
           else evaluate fuel right env st
         | .err e2 => (.err e2, st)
         | .panicked m => (.panicked m, st)
         | .timeout => (.timeout, st))
      | .And =>
        obind (evaluate fuel left env st) fun lhs_value st =>
        (match is_truthy lhs_value with
         | .ok lhs_true =>
           if lv_eq lhs_true .False then (.ok lhs_true, st)
           else evaluate fuel right env st
         | .err e2 => (.err e2, st)
         | .panicked m => (.panicked m, st)
         | .timeout => (.timeout, st))
      | ttype => (.err ("Invalid token in logical expression: " ++ ttype.str), st)
    | .Grouping expression => evaluate fuel expression env st
    | .Unary operator right =>
      obind (evaluate fuel right env st) fun r st =>
      (match r, operator.token_type with
       | .Number x, .Minus => (.ok (.Number (-x)), st)
       | _, .Minus => (.err ("minus not implemented for " ++ r.to_type), st)
       | any, .Bang =>
         (match is_falsy any with
          | .ok v => (.ok v, st)
          | .err e2 => (.err e2, st)
          | .panicked m => (.panicked m, st)
          | .timeout => (.timeout, st))
       | _, ttype => (.err (ttype.str ++ " is not a valid unary operator"), st))
    | .Binary left operator right =>
      obind (evaluate fuel left env st) fun l st =>
      obind (evaluate fuel right env st) fun r st =>
      (binary_op l operator.token_type r, st)
    | .Call callee _paren arguments =>
      obind (evaluate fuel callee env st) fun callable st =>
      match callable with
      | .Callable name arity fn =>
        if arguments.length ≠ arity then
          (.err ("Callable " ++ name ++ " expected " ++ Nat.repr arity ++
                 " arguments but got " ++ Nat.repr arguments.length), st)
        else
          obind (eval_args fuel arguments env st) fun arg_vals st =>
          call_fun fuel fn env arg_vals st
      | other => (.err (other.to_type ++ " is not callable"), st)

/-- The left-to-right argument collection loop of the `Call` arm. -/
def eval_args : Nat → List Expr → Nat → IState → Outcome (List LiteralValue) × IState
  | 0, _, _, st => (.timeout, st)
  | _+1, [], _, st => (.ok [], st)
  | fuel+1, a :: rest, env, st =>
    obind (evaluate fuel a env st) fun v st =>
    obind (eval_args fuel rest env st) fun vs st =>
    (.ok (v :: vs), st)

/-- Invocation of a callable: `clock_impl`, or the `fun_impl` closure of
`Stmt::Function` (`interpreter.rs`). The closure runs in its own
interpreter (`Interpreter::for_closure`), so the caller's
current-environment pointer is untouched — the returned state's `current`
is restored unconditionally. Inside the closure, statement errors become
panics (`.expect`), and so does an error in the final expression
(`.unwrap`). -/
def call_fun : Nat → CallableImpl → Nat → List LiteralValue → IState → Outcome LiteralValue × IState
  | 0, _, _, _, st => (.timeout, st)
  | _+1, .clockImpl, _, _, st => (.ok (.StringValue (Nat.repr st.time)), st)
  | fuel+1, .funImpl fname params body, parent_env, args, st =>
    let addr := st.store.length
    let store1 := st.store ++ [(⟨[], some parent_env⟩ : Frame)]
    let store2 := (params.zip args).foldl
      (fun acc pa => env_define acc addr pa.1.lexeme pa.2) store1
    let inner := { st with store := store2, current := addr }
    if body.isEmpty then
      -- `0..(body.len() - 1)` underflows `usize` in Rust: a panic
      (.panicked "attempt to subtract with overflow", { inner with current := st.current })
    else
      match body_loop fuel fname body.dropLast inner with
      | (.ok _, st2) =>
        (match body.getLast? with
         | some (.Expression e) =>
           (match evaluate fuel e addr st2 with
            | (.ok v, st3) => (.ok v, { st3 with current := st.current })
            | (.err e2, st3) =>
              (.panicked ("called Result::unwrap() on an Err value: " ++ e2),
               { st3 with current := st.current })
            | (.panicked m, st3) => (.panicked m, { st3 with current := st.current })
            | (.timeout, st3) => (.timeout, { st3 with current := st.current }))
         | some _ => (.panicked "not yet implemented", { st2 with current := st.current })
         | none => (.panicked "not yet implemented", { st2 with current := st.current }))
      | (.err e2, st2) => (.err e2, { st2 with current := st.current })
      | (.panicked m, st2) => (.panicked m, { st2 with current := st.current })
      | (.timeout, st2) => (.timeout, { st2 with current := st.current })

/-- The `for i in 0..(body.len() - 1)` loop of `fun_impl`: each body
statement is interpreted with `.expect(...)`, so an error is a panic whose
message names the function. -/
def body_loop : Nat → String → List Stmt → IState → Outcome Unit × IState
  | 0, _, _, st => (.timeout, st)
  | _+1, _, [], st => (.ok (), st)
  | fuel+1, fname, s :: rest, st =>
    match interpret fuel [s] st with
    | (.ok _, st') => body_loop fuel fname rest st'
    | (.err _, st') => (.panicked ("evaluating failed inside " ++ fname), st')
    | (.panicked m, st') => (.panicked m, st')
    | (.timeout, st') => (.timeout, st')

/-- `Interpreter::interpret` (`interpreter.rs`): execute the statements in
order; the match arms live in `exec_stmt`. -/
def interpret : Nat → List Stmt → IState → Outcome Unit × IState
  | 0, _, st => (.timeout, st)
  | _+1, [], st => (.ok (), st)
  | fuel+1, stmt :: rest, st =>
    obind (exec_stmt fuel stmt st) fun _ st => interpret fuel rest st

/-- One arm of the `match stmt` in `Interpreter::interpret`. -/
def exec_stmt : Nat → Stmt → IState → Outcome Unit × IState
  | 0, _, st => (.timeout, st)
  | fuel+1, stmt, st =>
    match stmt with
    | .Expression expression =>
      obind (evaluate fuel expression st.current st) fun _ st => (.ok (), st)
    | .Print expression =>
      obind (evaluate fuel expression st.current st) fun value st =>
      (.ok (), { st with output := st.output ++ [value.to_string] })
    | .Var name init_e =>
      obind (evaluate fuel init_e st.current st) fun value st =>
      (.ok (), { st with store := env_define st.store st.current name.lexeme value })
    | .Block statements =>
      -- fresh environment enclosing the current one; the old pointer is
      -- reinstated only after a successful `self.interpret(stmts)?`
      let old_environment := st.current
      let addr := st.store.length
      let st := { st with
                  store := st.store ++ [(⟨[], some old_environment⟩ : Frame)],
                  current := addr }
      obind (interpret fuel statements st) fun _ st =>
      (.ok (), { st with current := old_environment })
    | .IfStmt predicate then_s els =>
      obind (evaluate fuel predicate st.current st) fun truth_value st =>
      (match is_truthy truth_value with
       | .ok tv =>
         if lv_eq tv .True then interpret fuel [then_s] st
         else
           (match els with
            | some els_stmt => interpret fuel [els_stmt] st
            | none => (.ok (), st))
       | .err e2 => (.err e2, st)
       | .panicked m => (.panicked m, st)
       | .timeout => (.timeout, st))
    | .WhileStmt condition body =>
      obind (evaluate fuel condition st.current st) fun flag st =>
      while_loop fuel condition body flag st
    | .Function name params body =>
      let arity := params.length
      let callable := LiteralValue.Callable name.lexeme arity (.funImpl name.lexeme params body)
      (.ok (), { st with store := env_define st.store st.current name.lexeme callable })

/-- The `while flag.is_truthy() == True` loop of the `WhileStmt` arm:
execute the body, re-evaluate the condition, repeat. -/
def while_loop : Nat → Expr → Stmt → LiteralValue → IState → Outcome Unit × IState
  | 0, _, _, _, st => (.timeout, st)
  | fuel+1, condition, body, flag, st =>
    match is_truthy flag with
    | .ok tv =>
      if lv_eq tv .True then
        obind (interpret fuel [body] st) fun _ st =>
        obind (evaluate fuel condition st.current st) fun flag' st =>
        while_loop fuel condition body flag' st
      else (.ok (), st)
    | .err e2 => (.err e2, st)
    | .panicked m => (.panicked m, st)
    | .timeout => (.timeout, st)

end

/-- `Interpreter::new`: the globals frame holds the built-in `clock`
(arity 0). -/
def new_interpreter_state (time : Nat) : IState :=
  { store := [⟨[("clock", .Callable "clock" 0 .clockImpl)], none⟩],
    current := 0, output := [], time := time }

/-- `main.rs` `run`: scan, parse, interpret. -/
def run_source (fuel : Nat) (contents : String) (st : IState) : Outcome Unit × IState :=
  match scan_tokens contents with
  | .ok tokens =>
    match parse fuel tokens with
    | (.ok stmts, _) => interpret fuel stmts st
    | (.err e, _) => (.err e, st)
    | (.panicked m, _) => (.panicked m, st)
    | (.timeout, _) => (.timeout, st)
  | .err e => (.err e, st)
  | .panicked m => (.panicked m, st)
  | .timeout => (.timeout, st)

/-- The first two pipeline stages of `main.rs` `run` (scan then parse),
keeping only the parser's outcome. -/
def scan_and_parse (fuel : Nat) (source : String) : Outcome (List Stmt) :=
  match scan_tokens source with
  | .ok tokens => (parse fuel tokens).1
  | .err e => .err e
  | .panicked m => .panicked m
  | .timeout => .timeout

/-- Statement vocabulary for claim C9: the maximal digit run of `source`
from position `i`. -/
def digit_run (source : List Char) (i : Nat) : List Char :=
  (source.drop i).takeWhile (fun c => is_digit c)

/-- Position just past the digit run being consumed by `number` (whose
entry state has `current` one past the triggering digit). -/
def run_end (st : Scanner) : Nat :=
  st.current + (digit_run st.source st.current).length

/-- The float branch condition of `number`: a `.` right after the digit
run, itself followed by another digit. -/
def c9_dot_case (st : Scanner) : Prop :=
  st.source.getD (run_end st) '\x00' = '.' ∧
  is_digit (st.source.getD (run_end st + 1) '\x00') = true

/-- The verbatim text of an integer literal: the triggering digit plus the
maximal digit run. -/
def int_lex (st : Scanner) : List Char :=
  st.source.getD st.start '\x00' :: digit_run st.source st.current

def frac_end (st : Scanner) : Nat :=
  run_end st + 1 + (digit_run st.source (run_end st + 1)).length

/-- The verbatim text of a float literal: integer part, dot, fraction. -/
def float_lex (st : Scanner) : List Char :=
  int_lex st ++ '.' :: digit_run st.source (run_end st + 1)

/-- Token lists for the canonical call `f(x, x, ..., x);` used to probe the
argument-count limit of `finish_call` (claim C3). -/
def arg_toks : Nat → List Token
  | 0 => []
  | 1 => [⟨.Identifier, "x", none, 1⟩]
  | n+2 => ⟨.Identifier, "x", none, 1⟩ :: ⟨.Comma, ",", none, 1⟩ :: arg_toks (n+1)

def mk_call_tokens (n : Nat) : List Token :=
  ⟨.Identifier, "f", none, 1⟩ :: ⟨.LeftParen, "(", none, 1⟩ ::
    (arg_toks n ++ [⟨.RightParen, ")", none, 1⟩, ⟨.SemiColon, ";", none, 1⟩,
      ⟨.Eof, "", none, 1⟩])

/-!  ## Supporting lemmas  -/

theorem str_length_zero_iff (s : String) : s.length = 0 ↔ s = "" := by
  cases s with
  | mk data =>
    constructor
    · intro h
      have hd : data = [] := List.length_eq_zero.mp (by simpa [String.length] using h)
      subst hd; rfl
    · intro h
      rw [h]
      rfl

/-- `call_fun` never moves the caller's current-environment pointer: the
closure runs in its own interpreter (`Interpreter::for_closure`). -/
theorem call_fun_current (fuel : Nat) (impl : CallableImpl) (pe : Nat)
    (args : List LiteralValue) (st : IState) :
    ((call_fun fuel impl pe args st).2).current = st.current := by
  cases fuel with
  | zero => rfl
  | succ fuel =>
    cases impl with
    | clockImpl => rfl
    | funImpl fname params body =>
      simp only [call_fun]
      repeat' split
      all_goals rfl

/-- `evaluate` (and the argument loop) never move the interpreter's
current-environment pointer; only the frame store and output change. -/
theorem evaluate_current (fuel : Nat) :
    (∀ e env st, ((evaluate fuel e env st).2).current = st.current) ∧
    (∀ args env st, ((eval_args fuel args env st).2).current = st.current) := by
  induction fuel with
  | zero => exact ⟨fun _ _ _ => rfl, fun _ _ _ => rfl⟩
  | succ fuel ih =>
    obtain ⟨ihe, iha⟩ := ih
    constructor
    · intro e env st
      cases e with
      | Assign name value =>
        simp only [evaluate]
        rcases h : evaluate fuel value env st with ⟨o, st'⟩
        have hc := ihe value env st
        rw [h] at hc
        cases o <;> simp only [obind] <;> try exact hc
        split <;> simpa using hc
      | Variable name =>
        simp only [evaluate]
        rcases h : env_get st.store env name.lexeme with _ | v <;> simp
      | Literal value => rfl
      | Logical left operator right =>
        simp only [evaluate]
        rcases ht : operator.token_type <;> simp only [] <;> try rfl
        · -- And
          rcases h : evaluate fuel left env st with ⟨o, st'⟩
          have hc := ihe left env st
          rw [h] at hc
          cases o <;> simp only [obind] <;> try exact hc
          rcases h2 : is_truthy _ with _ | _ | _ <;> simp only [] <;> try exact hc
          split
          · exact hc
          · rw [(ihe right env st')] ; exact hc
        · -- Or
          rcases h : evaluate fuel left env st with ⟨o, st'⟩
          have hc := ihe left env st
          rw [h] at hc
          cases o <;> simp only [obind] <;> try exact hc
          rcases h2 : is_truthy _ with _ | _ | _ <;> simp only [] <;> try exact hc
          split
          · exact hc
          · rw [(ihe right env st')] ; exact hc
      | Grouping expression => simpa only [evaluate] using ihe expression env st
      | Unary operator right =>
        simp only [evaluate]
        rcases h : evaluate fuel right env st with ⟨o, st'⟩
        have hc := ihe right env st
        rw [h] at hc
        cases o <;> simp only [obind] <;> try exact hc
        split <;> try exact hc
        rcases h2 : is_falsy _ with _ | _ | _ <;> simp <;> exact hc
      | Binary left operator right =>
        simp only [evaluate]
        rcases h : evaluate fuel left env st with ⟨o, st'⟩
        have hc := ihe left env st
        rw [h] at hc
        cases o <;> simp only [obind] <;> try exact hc
        rcases h2 : evaluate fuel right env st' with ⟨o2, st2⟩
        have hc2 := ihe right env st'
        rw [h2] at hc2
        cases o2 <;> simp only [obind] <;> (try rw [hc2]) <;> exact hc
      | Call callee paren arguments =>
        simp only [evaluate]
        rcases h : evaluate fuel callee env st with ⟨o, st'⟩
        have hc := ihe callee env st
        rw [h] at hc
        cases o <;> simp only [obind] <;> try exact hc
        split <;> try exact hc
        · split
          · exact hc
          · rcases h2 : eval_args fuel arguments env st' with ⟨o2, st2⟩
            have hc2 := iha arguments env st'
            rw [h2] at hc2
            cases o2 <;> simp only [obind] <;> try (rw [hc2]; exact hc)
            rw [call_fun_current, hc2]
            exact hc
    · intro args env st
      cases args with
      | nil => rfl
      | cons a rest =>
        simp only [eval_args]
        rcases h : evaluate fuel a env st with ⟨o, st'⟩
        have hc := ihe a env st
        rw [h] at hc
        cases o <;> simp only [obind] <;> try exact hc
        rcases h2 : eval_args fuel rest env st' with ⟨o2, st2⟩
        have hc2 := iha rest env st'
        rw [h2] at hc2
        cases o2 <;> simp only [obind] <;> (try rw [hc2]) <;> exact hc
/-- On successful completion, statement execution leaves the interpreter's
current-environment pointer where it started: the only arm that moves it —
`Block` — reinstates the saved pointer after its `interpret` succeeds. -/
theorem interpret_current (fuel : Nat) :
    (∀ stmts st, (interpret fuel stmts st).1 = .ok () →
      ((interpret fuel stmts st).2).current = st.current) ∧
    (∀ stmt st, (exec_stmt fuel stmt st).1 = .ok () →
      ((exec_stmt fuel stmt st).2).current = st.current) ∧
    (∀ c b f st, (while_loop fuel c b f st).1 = .ok () →
      ((while_loop fuel c b f st).2).current = st.current) := by
  induction fuel with
  | zero =>
    refine ⟨fun _ _ h => ?_, fun _ _ h => ?_, fun _ _ _ _ h => ?_⟩ <;>
      simp [interpret, exec_stmt, while_loop] at h
  | succ fuel ih =>
    obtain ⟨ihi, ihs, ihw⟩ := ih
    refine ⟨?_, ?_, ?_⟩
    · intro stmts st h
      cases stmts with
      | nil => rfl
      | cons stmt rest =>
        revert h
        simp only [interpret]
        rcases h1 : exec_stmt fuel stmt st with ⟨o, st1⟩
        have hc1 := ihs stmt st
        rw [h1] at hc1
        cases o <;> simp only [obind] <;> intro h
        · rw [ihi rest st1 h]
          exact hc1 rfl
        · exact Outcome.noConfusion h
        · exact Outcome.noConfusion h
        · exact Outcome.noConfusion h
    · intro stmt st h
      revert h
      cases stmt with
      | Expression expression =>
        simp only [exec_stmt]
        rcases h1 : evaluate fuel expression st.current st with ⟨o, st1⟩
        have hc := (evaluate_current fuel).1 expression st.current st
        rw [h1] at hc
        cases o <;> simp only [obind] <;> intro h
        · exact hc
        · exact Outcome.noConfusion h
        · exact Outcome.noConfusion h
        · exact Outcome.noConfusion h
      | Print expression =>
        simp only [exec_stmt]
        rcases h1 : evaluate fuel expression st.current st with ⟨o, st1⟩
        have hc := (evaluate_current fuel).1 expression st.current st
        rw [h1] at hc
        cases o <;> simp only [obind] <;> intro h
        · exact hc
        · exact Outcome.noConfusion h
        · exact Outcome.noConfusion h
        · exact Outcome.noConfusion h
      | Var name init_e =>
        simp only [exec_stmt]
        rcases h1 : evaluate fuel init_e st.current st with ⟨o, st1⟩
        have hc := (evaluate_current fuel).1 init_e st.current st
        rw [h1] at hc
        cases o <;> simp only [obind] <;> intro h
        · exact hc
        · exact Outcome.noConfusion h
        · exact Outcome.noConfusion h
        · exact Outcome.noConfusion h
      | Block statements =>
        simp only [exec_stmt]
        rcases h1 : interpret fuel statements _ with ⟨o, st1⟩
        cases o <;> simp only [obind] <;> intro h
        · trivial
        · exact Outcome.noConfusion h
        · exact Outcome.noConfusion h
        · exact Outcome.noConfusion h
      | IfStmt predicate then_s els =>
        simp only [exec_stmt]
        rcases h1 : evaluate fuel predicate st.current st with ⟨o, st1⟩
        have hc := (evaluate_current fuel).1 predicate st.current st
        rw [h1] at hc
        cases o <;> simp only [obind] <;> intro h
        case ok =>
          revert h
          rcases h2 : is_truthy _ with v | m | m | _ <;> simp only [] <;> intro h
          case ok =>
            revert h
            split <;> intro h
            · rw [ihi [then_s] st1 h]; exact hc
            · rcases els with _ | els_stmt
              · simp only [] at h ⊢; exact hc
              · rw [ihi [els_stmt] st1 h]; exact hc
          case err => exact Outcome.noConfusion h
          case panicked => exact Outcome.noConfusion h
          case timeout => exact Outcome.noConfusion h
        case err => exact Outcome.noConfusion h
        case panicked => exact Outcome.noConfusion h
        case timeout => exact Outcome.noConfusion h
      | WhileStmt condition body =>
        simp only [exec_stmt]
        rcases h1 : evaluate fuel condition st.current st with ⟨o, st1⟩
        have hc := (evaluate_current fuel).1 condition st.current st
        rw [h1] at hc
        cases o <;> simp only [obind] <;> intro h
        · rw [ihw condition body _ st1 h]
          exact hc
        · exact Outcome.noConfusion h
        · exact Outcome.noConfusion h
        · exact Outcome.noConfusion h
      | Function name params body =>
        simp only [exec_stmt]
        intro h
        trivial
    · intro c b f st h
      revert h
      simp only [while_loop]
      rcases h2 : is_truthy f with v | m | m | _ <;> simp only [] <;> intro h
      case ok =>
        revert h
        split <;> intro h
        · revert h
          rcases h1 : interpret fuel [b] st with ⟨o, st1⟩
          have hc1 := ihi [b] st
          rw [h1] at hc1
          cases o <;> simp only [obind] <;> intro h
          case ok =>
            revert h
            rcases h3 : evaluate fuel c st1.current st1 with ⟨o2, st2⟩
            have hc2 := (evaluate_current fuel).1 c st1.current st1
            rw [h3] at hc2
            cases o2 <;> simp only [obind] <;> intro h
            case ok => rw [ihw c b _ st2 h, hc2, hc1 rfl]
            case err => exact Outcome.noConfusion h
            case panicked => exact Outcome.noConfusion h
            case timeout => exact Outcome.noConfusion h
          case err => exact Outcome.noConfusion h
          case panicked => exact Outcome.noConfusion h
          case timeout => exact Outcome.noConfusion h
        · rfl
      case err => exact Outcome.noConfusion h
      case panicked => exact Outcome.noConfusion h
      case timeout => exact Outcome.noConfusion h


theorem claim_C1 (fuel : Nat) (statements : List Stmt) (st : IState)
    (h : (exec_stmt fuel (.Block statements) st).1 = .ok ()) :
    ((exec_stmt fuel (.Block statements) st).2).current = st.current :=
  (interpret_current fuel).2.1 (.Block statements) st h

theorem claim_C1_witness :
    ((exec_stmt 9 (.Block [.Expression (.Literal .Nil)]) (new_interpreter_state 0)).2).current
      = (new_interpreter_state 0).current :=
  claim_C1 9 [.Expression (.Literal .Nil)] (new_interpreter_state 0) rfl

theorem claim_C1_counterexample :
    (interpret 99 [.Block [.Expression (.Variable ⟨.Identifier, "z", none, 1⟩)]]
        (new_interpreter_state 0)).1 = .err "Variable \x27z\x27 has not been declared" ∧
    ((interpret 99 [.Block [.Expression (.Variable ⟨.Identifier, "z", none, 1⟩)]]
        (new_interpreter_state 0)).2).current = 1 ∧
    (new_interpreter_state 0).current = 0 :=
  ⟨rfl, rfl, rfl⟩

theorem claim_C10 (fuel : Nat) (name : Token) (init_e : Expr) (st : IState)
    (e : String) (stf : IState)
    (h : evaluate fuel init_e st.current st = (.err e, stf)) :
    exec_stmt (fuel+1) (.Var name init_e) st = (.err e, stf) := by
  simp only [exec_stmt, h, obind]

theorem claim_C10_witness :
    exec_stmt 8 (.Var ⟨.Identifier, "q", none, 1⟩ (.Variable ⟨.Identifier, "z", none, 1⟩))
        (new_interpreter_state 0)
      = (.err "Variable \x27z\x27 has not been declared", new_interpreter_state 0) :=
  claim_C10 7 ⟨.Identifier, "q", none, 1⟩ (.Variable ⟨.Identifier, "z", none, 1⟩)
    (new_interpreter_state 0) "Variable \x27z\x27 has not been declared"
    (new_interpreter_state 0) rfl

theorem claim_C4 (v : LiteralValue) (h : ∀ n a f, v ≠ .Callable n a f) :
    (is_falsy v = .ok .True ↔
      (v = .Nil ∨ v = .False ∨ v = .Number 0 ∨ v = .StringValue "")) ∧
    ((is_falsy v = .ok .True ∧ is_truthy v = .ok .False) ∨
     (is_falsy v = .ok .False ∧ is_truthy v = .ok .True)) := by
  cases v with
  | Number x =>
    by_cases hx : x = 0
    · subst hx
      simp [is_falsy, is_truthy]
    · simp [is_falsy, is_truthy, hx]
  | StringValue s =>
    by_cases hs : s = ""
    · subst hs
      simp [is_falsy, is_truthy]
    · have : s.length ≠ 0 := fun hl => hs (str_length_zero_iff s |>.mp hl)
      simp [is_falsy, is_truthy, hs, this]
  | True => simp [is_falsy, is_truthy]
  | False => simp [is_falsy, is_truthy]
  | Nil => simp [is_falsy, is_truthy]
  | Callable n a f => exact absurd rfl (h n a f)

theorem claim_C4_witness :
    (is_falsy .Nil = .ok .True ↔
      ((.Nil : LiteralValue) = .Nil ∨ (.Nil : LiteralValue) = .False ∨
       (.Nil : LiteralValue) = .Number 0 ∨ (.Nil : LiteralValue) = .StringValue "")) ∧
    ((is_falsy .Nil = .ok .True ∧ is_truthy .Nil = .ok .False) ∨
     (is_falsy .Nil = .ok .False ∧ is_truthy .Nil = .ok .True)) :=
  claim_C4 .Nil (fun _ _ _ hne => LiteralValue.noConfusion hne)

theorem claim_C6 (fuel : Nat) (a b : Expr) (tor tand : Token) (env : Nat)
    (st st1 : IState) (va : LiteralValue)
    (hor : tor.token_type = .Or) (hand : tand.token_type = .And)
    (ha : evaluate fuel a env st = (.ok va, st1)) :
    (is_truthy va = .ok .True →
       evaluate (fuel+1) (.Logical a tor b) env st = (.ok va, st1) ∧
       evaluate (fuel+1) (.Logical a tand b) env st = evaluate fuel b env st1) ∧
    (is_truthy va = .ok .False →
       evaluate (fuel+1) (.Logical a tor b) env st = evaluate fuel b env st1 ∧
       evaluate (fuel+1) (.Logical a tand b) env st = (.ok .False, st1)) := by
  constructor <;> intro ht <;> constructor <;>
    simp [evaluate, hor, hand, ha, obind, ht, lv_eq]

theorem claim_C5 (fuel : Nat) (a b : Expr) (tor tand : Token) (env : Nat)
    (st st1 : IState) (va : LiteralValue)
    (hor : tor.token_type = .Or) (hand : tand.token_type = .And)
    (ha : evaluate fuel a env st = (.ok va, st1)) :
    (is_truthy va = .ok .True →
       (evaluate (fuel+1) (.Logical a tor b) env st).1 = .ok va ∧
       (evaluate (fuel+1) (.Logical a tand b) env st).1 = (evaluate fuel b env st1).1) ∧
    (is_truthy va = .ok .False →
       (evaluate (fuel+1) (.Logical a tand b) env st).1 = .ok .False ∧
       (evaluate (fuel+1) (.Logical a tor b) env st).1 = (evaluate fuel b env st1).1) := by
  constructor <;> intro ht <;> constructor <;>
    simp [evaluate, hor, hand, ha, obind, ht, lv_eq]

theorem claim_C7 (fuel : Nat) (callee : Expr) (paren : Token) (args : List Expr)
    (env : Nat) (st st1 : IState) (nm : String) (ar : Nat) (fn : CallableImpl)
    (hc : evaluate fuel callee env st = (.ok (.Callable nm ar fn), st1))
    (hn : args.length ≠ ar) :
    evaluate (fuel+1) (.Call callee paren args) env st =
      (.err ("Callable " ++ nm ++ " expected " ++ Nat.repr ar ++
             " arguments but got " ++ Nat.repr args.length), st1) := by
  simp [evaluate, hc, obind, hn]


theorem claim_C6_witness :
    evaluate 2 (.Logical (.Literal (.Number 5)) ⟨.Or, "or", none, 1⟩ (.Literal .Nil)) 0
        (new_interpreter_state 0) = (.ok (.Number 5), new_interpreter_state 0) ∧
    evaluate 2 (.Logical (.Literal (.Number 5)) ⟨.And, "and", none, 1⟩ (.Literal .Nil)) 0
        (new_interpreter_state 0) = evaluate 1 (.Literal .Nil) 0 (new_interpreter_state 0) :=
  (claim_C6 1 (.Literal (.Number 5)) (.Literal .Nil) ⟨.Or, "or", none, 1⟩ ⟨.And, "and", none, 1⟩
    0 (new_interpreter_state 0) (new_interpreter_state 0) (.Number 5) rfl rfl rfl).1 rfl

theorem claim_C5_witness :
    (evaluate 2 (.Logical (.Literal (.Number 0)) ⟨.And, "and", none, 1⟩ (.Literal .Nil)) 0
        (new_interpreter_state 0)).1 = .ok .False ∧
    (evaluate 2 (.Logical (.Literal (.Number 0)) ⟨.Or, "or", none, 1⟩ (.Literal .Nil)) 0
        (new_interpreter_state 0)).1 = (evaluate 1 (.Literal .Nil) 0 (new_interpreter_state 0)).1 :=
  (claim_C5 1 (.Literal (.Number 0)) (.Literal .Nil) ⟨.Or, "or", none, 1⟩ ⟨.And, "and", none, 1⟩
    0 (new_interpreter_state 0) (new_interpreter_state 0) (.Number 0) rfl rfl rfl).2 rfl

theorem claim_C7_witness :
    evaluate 2 (.Call (.Literal (.Callable "f" 2 .clockImpl)) eof_token [.Literal .Nil]) 0
        (new_interpreter_state 0) =
      (.err "Callable f expected 2 arguments but got 1", new_interpreter_state 0) :=
  claim_C7 1 (.Literal (.Callable "f" 2 .clockImpl)) eof_token [.Literal .Nil] 0
    (new_interpreter_state 0) (new_interpreter_state 0) "f" 2 .clockImpl rfl (by decide)


theorem claim_C10_counterexample :
    env_get [(⟨[("clock", .Callable "clock" 0 .clockImpl), ("a", .Number 1)], none⟩ : Frame)] 0 "a"
      = some (.Number 1) ∧
    (exec_stmt 99
        (.Var ⟨.Identifier, "a", none, 1⟩
          (.Binary (.Assign ⟨.Identifier, "a", none, 1⟩ (.Literal (.Number 2)))
            ⟨.Plus, "+", none, 1⟩ (.Variable ⟨.Identifier, "z", none, 1⟩)))
        ⟨[⟨[("clock", .Callable "clock" 0 .clockImpl), ("a", .Number 1)], none⟩], 0, [], 0⟩).1
      = .err "Variable \x27z\x27 has not been declared" ∧
    env_get ((exec_stmt 99
        (.Var ⟨.Identifier, "a", none, 1⟩
          (.Binary (.Assign ⟨.Identifier, "a", none, 1⟩ (.Literal (.Number 2)))
            ⟨.Plus, "+", none, 1⟩ (.Variable ⟨.Identifier, "z", none, 1⟩)))
        ⟨[⟨[("clock", .Callable "clock" 0 .clockImpl), ("a", .Number 1)], none⟩], 0, [], 0⟩).2).store
      0 "a" = some (.Number 2) :=
  ⟨rfl, rfl, rfl⟩

theorem c2_scan :
    scan_tokens "var i = 1; while (i < 2) \x7b print i; i = i + 1; \x7d" =
      .ok [⟨.Var, "var", none, 1⟩, ⟨.Identifier, "i", none, 1⟩, ⟨.Equal, "=", none, 1⟩,
           ⟨.Number, "1", some (.IntValue 1), 1⟩, ⟨.SemiColon, ";", none, 1⟩,
           ⟨.While, "while", none, 1⟩, ⟨.LeftParen, "(", none, 1⟩, ⟨.Identifier, "i", none, 1⟩,
           ⟨.Less, "<", none, 1⟩, ⟨.Number, "2", some (.IntValue 2), 1⟩,
           ⟨.RightParen, ")", none, 1⟩, ⟨.LeftBrace, "\x7b", none, 1⟩, ⟨.Print, "print", none, 1⟩,
           ⟨.Identifier, "i", none, 1⟩, ⟨.SemiColon, ";", none, 1⟩, ⟨.Identifier, "i", none, 1⟩,
           ⟨.Equal, "=", none, 1⟩, ⟨.Identifier, "i", none, 1⟩, ⟨.Plus, "+", none, 1⟩,
           ⟨.Number, "1", some (.IntValue 1), 1⟩, ⟨.SemiColon, ";", none, 1⟩,
           ⟨.RightBrace, "\x7d", none, 1⟩, ⟨.Eof, "", none, 1⟩] := by
  decide

theorem claim_C2 :
    (run_source 999 "var i = 1; while (i < 2) \x7b print i; i = i + 1; \x7d"
        (new_interpreter_state 0)).1 = .panicked "could not unwrap as f32" ∧
    ((run_source 999 "var i = 1; while (i < 2) \x7b print i; i = i + 1; \x7d"
        (new_interpreter_state 0)).2).output = [] := by
  constructor <;>
  · simp only [run_source, c2_scan]
    rfl

theorem c8_scan_full :
    scan_tokens "for (var i = true; i; i = false) print i;" =
      .ok [⟨.For, "for", none, 1⟩, ⟨.LeftParen, "(", none, 1⟩, ⟨.Var, "var", none, 1⟩,
           ⟨.Identifier, "i", none, 1⟩, ⟨.Equal, "=", none, 1⟩, ⟨.True, "true", none, 1⟩,
           ⟨.SemiColon, ";", none, 1⟩, ⟨.Identifier, "i", none, 1⟩, ⟨.SemiColon, ";", none, 1⟩,
           ⟨.Identifier, "i", none, 1⟩, ⟨.Equal, "=", none, 1⟩, ⟨.False, "false", none, 1⟩,
           ⟨.RightParen, ")", none, 1⟩, ⟨.Print, "print", none, 1⟩, ⟨.Identifier, "i", none, 1⟩,
           ⟨.SemiColon, ";", none, 1⟩, ⟨.Eof, "", none, 1⟩] := by
  decide

theorem c8_scan_nocond :
    scan_tokens "for (var i = true;; i = false) print i;" =
      .ok [⟨.For, "for", none, 1⟩, ⟨.LeftParen, "(", none, 1⟩, ⟨.Var, "var", none, 1⟩,
           ⟨.Identifier, "i", none, 1⟩, ⟨.Equal, "=", none, 1⟩, ⟨.True, "true", none, 1⟩,
           ⟨.SemiColon, ";", none, 1⟩, ⟨.SemiColon, ";", none, 1⟩, ⟨.Identifier, "i", none, 1⟩,
           ⟨.Equal, "=", none, 1⟩, ⟨.False, "false", none, 1⟩, ⟨.RightParen, ")", none, 1⟩,
           ⟨.Print, "print", none, 1⟩, ⟨.Identifier, "i", none, 1⟩, ⟨.SemiColon, ";", none, 1⟩,
           ⟨.Eof, "", none, 1⟩] := by
  decide

theorem c8_scan_noinit :
    scan_tokens "for (; i; i = false) print i;" =
      .ok [⟨.For, "for", none, 1⟩, ⟨.LeftParen, "(", none, 1⟩, ⟨.SemiColon, ";", none, 1⟩,
           ⟨.Identifier, "i", none, 1⟩, ⟨.SemiColon, ";", none, 1⟩, ⟨.Identifier, "i", none, 1⟩,
           ⟨.Equal, "=", none, 1⟩, ⟨.False, "false", none, 1⟩, ⟨.RightParen, ")", none, 1⟩,
           ⟨.Print, "print", none, 1⟩, ⟨.Identifier, "i", none, 1⟩, ⟨.SemiColon, ";", none, 1⟩,
           ⟨.Eof, "", none, 1⟩] := by
  decide

theorem c8_scan_noincr :
    scan_tokens "for (var i = true; i;) print i;" =
      .ok [⟨.For, "for", none, 1⟩, ⟨.LeftParen, "(", none, 1⟩, ⟨.Var, "var", none, 1⟩,
           ⟨.Identifier, "i", none, 1⟩, ⟨.Equal, "=", none, 1⟩, ⟨.True, "true", none, 1⟩,
           ⟨.SemiColon, ";", none, 1⟩, ⟨.Identifier, "i", none, 1⟩, ⟨.SemiColon, ";", none, 1⟩,
           ⟨.RightParen, ")", none, 1⟩, ⟨.Print, "print", none, 1⟩, ⟨.Identifier, "i", none, 1⟩,
           ⟨.SemiColon, ";", none, 1⟩, ⟨.Eof, "", none, 1⟩] := by
  decide

theorem c8_scan_bare :
    scan_tokens "for (;;) print x;" =
      .ok [⟨.For, "for", none, 1⟩, ⟨.LeftParen, "(", none, 1⟩, ⟨.SemiColon, ";", none, 1⟩,
           ⟨.SemiColon, ";", none, 1⟩, ⟨.RightParen, ")", none, 1⟩, ⟨.Print, "print", none, 1⟩,
           ⟨.Identifier, "x", none, 1⟩, ⟨.SemiColon, ";", none, 1⟩, ⟨.Eof, "", none, 1⟩] := by
  decide

theorem claim_C8 :
    scan_and_parse 999 "for (var i = true; i; i = false) print i;" =
      .ok [.Block
            [.Var ⟨.Identifier, "i", none, 1⟩ (.Literal .True),
             .WhileStmt (.Variable ⟨.Identifier, "i", none, 1⟩)
               (.Block
                 [.Print (.Variable ⟨.Identifier, "i", none, 1⟩),
                  .Expression (.Assign ⟨.Identifier, "i", none, 1⟩ (.Literal .False))])]] ∧
    scan_and_parse 999 "for (var i = true;; i = false) print i;" =
      .ok [.Block
            [.Var ⟨.Identifier, "i", none, 1⟩ (.Literal .True),
             .WhileStmt (.Literal .True)
               (.Block
                 [.Print (.Variable ⟨.Identifier, "i", none, 1⟩),
                  .Expression (.Assign ⟨.Identifier, "i", none, 1⟩ (.Literal .False))])]] ∧
    scan_and_parse 999 "for (; i; i = false) print i;" =
      .ok [.WhileStmt (.Variable ⟨.Identifier, "i", none, 1⟩)
            (.Block
              [.Print (.Variable ⟨.Identifier, "i", none, 1⟩),
               .Expression (.Assign ⟨.Identifier, "i", none, 1⟩ (.Literal .False))])] ∧
    scan_and_parse 999 "for (var i = true; i;) print i;" = .err "Expected expression" := by
  refine ⟨?_, ?_, ?_, ?_⟩
  · simp only [scan_and_parse, c8_scan_full]
    rfl
  · simp only [scan_and_parse, c8_scan_nocond]
    rfl
  · simp only [scan_and_parse, c8_scan_noinit]
    rfl
  · simp only [scan_and_parse, c8_scan_noincr]
    rfl

theorem claim_C8_counterexample :
    scan_and_parse 999 "for (;;) print x;" = .err "Expected expression" := by
  simp only [scan_and_parse, c8_scan_bare]
  rfl

theorem getD_eq_headD_drop {α : Type} : ∀ (l : List α) (n : Nat) (d : α),
    l.getD n d = (l.drop n).headD d := by
  intro l
  induction l with
  | nil => intro n d; cases n <;> rfl
  | cons a t ih =>
    intro n d
    cases n with
    | zero => rfl
    | succ n => simp [ih n d]

theorem drop_cons_getD {α : Type} : ∀ (l : List α) (n : Nat) (d : α), n < l.length →
    l.drop n = l.getD n d :: l.drop (n + 1) := by
  intro l
  induction l with
  | nil => intro n d h; simp at h
  | cons a t ih =>
    intro n d h
    cases n with
    | zero => rfl
    | succ n =>
      have := ih n d (by simpa using h)
      simpa using this

theorem take_takeWhile_len (p : Char → Bool) : ∀ l : List Char,
    l.take (l.takeWhile p).length = l.takeWhile p := by
  intro l
  induction l with
  | nil => rfl
  | cons a t ih =>
    by_cases h : p a
    · simp [List.takeWhile_cons, h, ih]
    · simp [List.takeWhile_cons, h]

theorem drop_takeWhile_len (p : Char → Bool) : ∀ l : List Char,
    l.drop (l.takeWhile p).length = l.dropWhile p := by
  intro l
  induction l with
  | nil => rfl
  | cons a t ih =>
    by_cases h : p a
    · simp [List.takeWhile_cons, List.dropWhile_cons, h, ih]
    · simp [List.takeWhile_cons, List.dropWhile_cons, h]

theorem takeWhile_all (p : Char → Bool) : ∀ l : List Char,
    (l.takeWhile p).all p = true := by
  intro l
  induction l with
  | nil => rfl
  | cons a t ih =>
    by_cases h : p a
    · simp [List.takeWhile_cons, h, ih]
    · simp [List.takeWhile_cons, h]

theorem takeWhile_append_all (p : Char → Bool) : ∀ (l₁ l₂ : List Char),
    l₁.all p = true → (l₁ ++ l₂).takeWhile p = l₁ ++ l₂.takeWhile p := by
  intro l₁
  induction l₁ with
  | nil => intro l₂ _; rfl
  | cons a t ih =>
    intro l₂ h
    simp only [List.all_cons, Bool.and_eq_true] at h
    simp [List.takeWhile_cons, h.1, ih l₂ h.2]

theorem dropWhile_append_all (p : Char → Bool) : ∀ (l₁ l₂ : List Char),
    l₁.all p = true → (l₁ ++ l₂).dropWhile p = l₂.dropWhile p := by
  intro l₁
  induction l₁ with
  | nil => intro l₂ _; rfl
  | cons a t ih =>
    intro l₂ h
    simp only [List.all_cons, Bool.and_eq_true] at h
    simp [List.dropWhile_cons, h.1, ih l₂ h.2]

theorem is_digit_nul : is_digit '\x00' = false := by decide

theorem digits_loop_spec : ∀ (fuel : Nat) (s : Scanner),
    s.source.length - s.current ≤ fuel →
    digits_loop fuel s =
      { s with current := s.current + (digit_run s.source s.current).length } := by
  intro fuel
  induction fuel with
  | zero =>
    intro s h
    have hle : s.source.length ≤ s.current := by omega
    simp [digits_loop, digit_run, List.drop_eq_nil_of_le hle]
  | succ fuel ih =>
    intro s h
    by_cases hend : s.source.length ≤ s.current
    · have hp : s.peek = '\x00' := by
        simp [Scanner.peek, Scanner.is_at_end, hend]
      simp [digits_loop, hp, is_digit_nul, digit_run, List.drop_eq_nil_of_le hend]
    · push_neg at hend
      have hp : s.peek = s.source.getD s.current '\x00' := by
        simp [Scanner.peek, Scanner.is_at_end]
        omega
      have hdrop := drop_cons_getD s.source s.current '\x00' hend
      by_cases hd : is_digit (s.source.getD s.current '\x00')
      · have ha : (s.advance).2 = { s with current := s.current + 1 } := rfl
        have ih' := ih { s with current := s.current + 1 } (by simp; omega)
        simp only [digits_loop, hp, hd, if_true, ha, ih']
        simp only [digit_run, hdrop, List.takeWhile_cons, hd, if_true]
        simp
        omega
      · simp only [digits_loop, hp, hd]
        simp only [digit_run, hdrop, List.takeWhile_cons, hd]
        simp

theorem peek_getD (s : Scanner) : s.peek = s.source.getD s.current '\x00' := by
  by_cases h : s.source.length ≤ s.current
  · rw [List.getD_eq_default _ _ h]
    simp [Scanner.peek, Scanner.is_at_end, h]
  · simp only [Scanner.peek, Scanner.is_at_end, ge_iff_le]
    rw [if_neg]
    simp
    omega

theorem peek_next_getD (s : Scanner) : s.peek_next = s.source.getD (s.current + 1) '\x00' := by
  by_cases h : s.source.length ≤ s.current + 1
  · rw [List.getD_eq_default _ _ h]
    simp [Scanner.peek_next, h]
  · simp only [Scanner.peek_next, ge_iff_le]
    rw [if_neg]
    omega

theorem digit_ne_dot {c : Char} (h : is_digit c = true) : ¬(c = '.') := by
  intro he
  subst he
  exact absurd h (by decide)

theorem digit_nonnul {c : Char} (h : is_digit c = true) : ¬(c = '\x00') := by
  intro he
  subst he
  exact absurd h (by decide)

theorem all_digit_ne_dot {l : List Char} (h : l.all (fun c => is_digit c) = true) :
    l.all (fun c => decide ¬(c = '.')) = true := by
  rw [List.all_eq_true] at h ⊢
  intro x hx
  simpa using digit_ne_dot (by simpa using h x hx)

/-- If `getD` returns a digit, the index is in bounds. -/
theorem getD_digit_lt {l : List Char} {n : Nat}
    (h : is_digit (l.getD n '\x00') = true) : n < l.length := by
  by_contra hge
  push_neg at hge
  rw [List.getD_eq_default _ _ hge] at h
  exact absurd h (by decide)

theorem int_slice_eq (st : Scanner) (hcur : st.current = st.start + 1)
    (hlt : st.start < st.source.length) :
    (st.source.drop st.start).take (run_end st - st.start) = int_lex st := by
  have hdr := drop_cons_getD st.source st.start '\x00' hlt
  have hre : run_end st - st.start = (digit_run st.source st.current).length + 1 := by
    simp only [run_end, hcur]
    omega
  rw [hre, hdr, hcur, List.take_succ_cons]
  simp only [int_lex, List.cons.injEq, true_and]
  simp only [digit_run, hcur]
  exact take_takeWhile_len _ _

theorem number_int_spec (st : Scanner) (hcur : st.current = st.start + 1)
    (hlt : st.start < st.source.length)
    (hdig : is_digit (st.source.getD st.start '\x00') = true)
    (hnodot : ¬ c9_dot_case st) :
    number st =
      if digits_to_nat (int_lex st) ≤ 9223372036854775807 then
        (.ok (), { st with
          current := run_end st,
          tokens := st.tokens ++ [⟨.Number, String.mk (int_lex st),
            some (.IntValue (Int.ofNat (digits_to_nat (int_lex st)))), st.line⟩] })
      else
        (.err ("Couldn\x27t parse number at line " ++ Nat.repr st.line ++
               ": number too large to fit in target type"), { st with current := run_end st }) := by
  have hdl := digits_loop_spec (st.source.length - st.current) st (Nat.le_refl _)
  have hs1 : digits_loop (st.source.length - st.current) st = { st with current := run_end st } := by
    simp only [run_end]
    exact hdl
  have hpk : ({ st with current := run_end st } : Scanner).peek = st.source.getD (run_end st) '\x00' := by
    rw [peek_getD]
  have hpn : ({ st with current := run_end st } : Scanner).peek_next = st.source.getD (run_end st + 1) '\x00' := by
    rw [peek_next_getD]
  have hslice : ({ st with current := run_end st } : Scanner).slice = String.mk (int_lex st) := by
    simp only [Scanner.slice]
    rw [int_slice_eq st hcur hlt]
  simp only [number, hs1]
  rw [if_neg]
  · rw [hslice]
    have hdata : (String.mk (int_lex st)).data = int_lex st := rfl
    have hall : (int_lex st).all (fun c => is_digit c) = true := by
      simp only [int_lex, List.all_cons, hdig, Bool.true_and]
      simp only [digit_run]
      exact takeWhile_all _ _
    simp only [parse_i64, hdata, hall]
    rw [if_pos ⟨List.cons_ne_nil _ _, trivial⟩]
    by_cases hv : digits_to_nat (int_lex st) ≤ 9223372036854775807
    · rw [if_pos hv, if_pos hv]
      simp only [Scanner.add_token_lit, hslice]
    · rw [if_neg hv, if_neg hv]
      have hx : (": " ++ "number too large to fit in target type" : String) =
          ": number too large to fit in target type" := rfl
      simp only [String.append_assoc, hx]
  · rw [hpk, hpn]
    exact hnodot

theorem run_end_lt (st : Scanner) (hdot : st.source.getD (run_end st) '\x00' = '.') :
    run_end st < st.source.length := by
  by_contra hge
  push_neg at hge
  rw [List.getD_eq_default _ _ hge] at hdot
  exact absurd hdot (by decide)

theorem float_slice_eq (st : Scanner) (hcur : st.current = st.start + 1)
    (hlt : st.start < st.source.length)
    (hdot : st.source.getD (run_end st) '\x00' = '.') :
    (st.source.drop st.start).take (frac_end st - st.start) = float_lex st := by
  have hre : frac_end st - st.start =
      ((digit_run st.source st.current).length +
        ((digit_run st.source (run_end st + 1)).length + 1)) + 1 := by
    simp only [frac_end, run_end, hcur]
    omega
  have hdr := drop_cons_getD st.source st.start '\x00' hlt
  rw [hre, hdr, hcur, List.take_succ_cons]
  have hsplit : st.source.drop (st.start + 1) =
      digit_run st.source (st.start + 1) ++
        (st.source.drop (st.start + 1)).dropWhile (fun c => is_digit c) := by
    simp only [digit_run]
    rw [List.takeWhile_append_dropWhile]
  have hX : (st.source.drop (st.start + 1)).dropWhile (fun c => is_digit c) =
      st.source.drop (run_end st) := by
    rw [← drop_takeWhile_len (fun c => is_digit c) (st.source.drop (st.start + 1))]
    rw [List.drop_drop]
    have heq : st.start + 1 +
        ((st.source.drop (st.start + 1)).takeWhile (fun c => is_digit c)).length = run_end st := by
      simp only [run_end, digit_run, hcur]
    rw [heq]
  have hlt2 : run_end st < st.source.length := run_end_lt st hdot
  have hdr2 := drop_cons_getD st.source (run_end st) '\x00' hlt2
  rw [hdot] at hdr2
  conv_lhs => rw [hsplit, hX, hdr2]
  have htk : ∀ (k : Nat) (Y : List Char),
      (digit_run st.source (st.start + 1) ++ Y).take
        ((digit_run st.source (st.start + 1)).length + k) =
        digit_run st.source (st.start + 1) ++ Y.take k := by
    intro k Y
    simp [List.take_append]
  rw [htk, List.take_succ_cons]
  have hfs : (st.source.drop (run_end st + 1)).take
      ((digit_run st.source (run_end st + 1)).length) = digit_run st.source (run_end st + 1) := by
    simp only [digit_run]
    exact take_takeWhile_len _ _
  rw [hfs]
  simp only [float_lex, int_lex, hcur]
  rfl

theorem number_float_spec (st : Scanner) (hcur : st.current = st.start + 1)
    (hlt : st.start < st.source.length)
    (hdig : is_digit (st.source.getD st.start '\x00') = true)
    (hdot : st.source.getD (run_end st) '\x00' = '.')
    (hfd : is_digit (st.source.getD (run_end st + 1) '\x00') = true) :
    ∃ q, number st = (.ok (), { st with
      current := frac_end st,
      tokens := st.tokens ++ [⟨.Number, String.mk (float_lex st),
        some (.FValue q), st.line⟩] }) := by
  have hdl := digits_loop_spec (st.source.length - st.current) st (Nat.le_refl _)
  have hs1 : digits_loop (st.source.length - st.current) st = { st with current := run_end st } := by
    simp only [run_end]
    exact hdl
  have hpk : ({ st with current := run_end st } : Scanner).peek = st.source.getD (run_end st) '\x00' := by
    rw [peek_getD]
  have hpn : ({ st with current := run_end st } : Scanner).peek_next =
      st.source.getD (run_end st + 1) '\x00' := by
    rw [peek_next_getD]
  have hs2 : (({ st with current := run_end st } : Scanner).advance).2 =
      { st with current := run_end st + 1 } := rfl
  have hdl2 := digits_loop_spec
    (st.source.length - (run_end st + 1)) { st with current := run_end st + 1 } (Nat.le_refl _)
  have hs3 : digits_loop (st.source.length - (run_end st + 1))
      ({ st with current := run_end st + 1 } : Scanner) = { st with current := frac_end st } := by
    rw [hdl2]
    simp only [frac_end, digit_run]
  have hslice : ({ st with current := frac_end st } : Scanner).slice = String.mk (float_lex st) := by
    simp only [Scanner.slice]
    rw [float_slice_eq st hcur hlt hdot]
  simp only [number, hs1]
  rw [if_pos ⟨by rw [hpk]; exact hdot, by rw [hpn]; exact hfd⟩]
  simp only [hs2, hs3, hslice]
  have hdata : (String.mk (float_lex st)).data = float_lex st := rfl
  have hip : (float_lex st).takeWhile (fun c => c ≠ '.') = int_lex st := by
    have hall : (int_lex st).all (fun c => decide ¬(c = '.')) = true := by
      apply all_digit_ne_dot
      simp only [int_lex, List.all_cons, hdig, Bool.true_and, digit_run]
      exact takeWhile_all _ _
    show ((int_lex st ++ '.' :: digit_run st.source (run_end st + 1)).takeWhile fun c => c ≠ '.')
      = int_lex st
    rw [takeWhile_append_all _ _ _ hall]
    simp [List.takeWhile_cons]
  have hfp : ((float_lex st).dropWhile (fun c => c ≠ '.')).drop 1 =
      digit_run st.source (run_end st + 1) := by
    have hall : (int_lex st).all (fun c => decide ¬(c = '.')) = true := by
      apply all_digit_ne_dot
      simp only [int_lex, List.all_cons, hdig, Bool.true_and, digit_run]
      exact takeWhile_all _ _
    show (((int_lex st ++ '.' :: digit_run st.source (run_end st + 1)).dropWhile fun c => c ≠ '.').drop 1)
      = digit_run st.source (run_end st + 1)
    rw [dropWhile_append_all _ _ _ hall]
    simp [List.dropWhile_cons]
  have hfs_ne : digit_run st.source (run_end st + 1) ≠ [] := by
    have hlt3 : run_end st + 1 < st.source.length := getD_digit_lt hfd
    have hdr3 := drop_cons_getD st.source (run_end st + 1) '\x00' hlt3
    simp only [digit_run, hdr3, List.takeWhile_cons, hfd, if_true]
    exact List.cons_ne_nil _ _
  have hip_ne : int_lex st ≠ [] := List.cons_ne_nil _ _
  have hip_all : (int_lex st).all (fun c => is_digit c) = true := by
    simp only [int_lex, List.all_cons, hdig, Bool.true_and, digit_run]
    exact takeWhile_all _ _
  have hfp_all : (digit_run st.source (run_end st + 1)).all (fun c => is_digit c) = true := by
    simp only [digit_run]
    exact takeWhile_all _ _
  simp only [parse_f64, hdata, hip, hfp]
  rw [if_pos ⟨hip_ne, hfs_ne, hip_all, hfp_all⟩]
  refine ⟨(digits_to_nat (int_lex st) : Rat) +
    (digits_to_nat (digit_run st.source (run_end st + 1)) : Rat) /
      10 ^ (digit_run st.source (run_end st + 1)).length, ?_⟩
  simp only [Scanner.add_token_lit, hslice]

theorem claim_C9 (st : Scanner) (hcur : st.current = st.start + 1)
    (hlt : st.start < st.source.length)
    (hdig : is_digit (st.source.getD st.start '\x00') = true) :
    (¬ c9_dot_case st →
      number st =
        if digits_to_nat (int_lex st) ≤ 9223372036854775807 then
          (.ok (), { st with
            current := run_end st,
            tokens := st.tokens ++ [⟨.Number, String.mk (int_lex st),
              some (.IntValue (Int.ofNat (digits_to_nat (int_lex st)))), st.line⟩] })
        else
          (.err ("Couldn\x27t parse number at line " ++ Nat.repr st.line ++
                 ": number too large to fit in target type"), { st with current := run_end st })) ∧
    (c9_dot_case st →
      ∃ q, number st = (.ok (), { st with
        current := frac_end st,
        tokens := st.tokens ++ [⟨.Number, String.mk (float_lex st),
          some (.FValue q), st.line⟩] })) :=
  ⟨fun h => number_int_spec st hcur hlt hdig h,
   fun h => number_float_spec st hcur hlt hdig h.1 h.2⟩

theorem claim_C9_witness :
    number ⟨"123.".data, [], 0, 1, 1⟩ =
      (.ok (), ⟨"123.".data, [⟨.Number, "123", some (.IntValue 123), 1⟩], 0, 3, 1⟩) ∧
    scan_tokens "123." = .ok [⟨.Number, "123", some (.IntValue 123), 1⟩,
      ⟨.Dot, ".", none, 1⟩, ⟨.Eof, "", none, 1⟩] :=
  ⟨(((claim_C9 ⟨"123.".data, [], 0, 1, 1⟩ rfl (by decide) (by decide)).1 (by unfold c9_dot_case; decide)).trans rfl),
   by decide⟩

theorem claim_C9_counterexample :
    scan_tokens "9999999999999999999" =
      .err "Couldn\x27t parse number at line 1: number too large to fit in target type\n" := by
  decide

/-!  Single-step unfolding lemmas for the expression-parser chain. Each is
stated with a variable fuel so that the one unfolding of the succ equation
cannot re-fire on the recursive occurrence inside. -/

theorem expression_step (fuel : Nat) (p : Prs) :
    expression (fuel+1) p = assignment fuel p := by
  simp only [expression]

theorem assignment_step (fuel : Nat) (p q : Prs) (e : Expr)
    (hsub : logic_or fuel p = (.ok e, q))
    (h0 : q.match_token .Equal = (false, q)) :
    assignment (fuel+1) p = (.ok e, q) := by
  simp only [assignment, hsub, obind, h0]
  rfl

theorem logic_or_step (fuel : Nat) (p q : Prs) (e : Expr)
    (hsub : logic_and fuel p = (.ok e, q)) :
    logic_or (fuel+1) p = or_loop fuel e q := by
  simp only [logic_or, hsub, obind]

theorem or_loop_exit (fuel : Nat) (e : Expr) (q : Prs)
    (h0 : q.match_token .Or = (false, q)) :
    or_loop (fuel+1) e q = (.ok e, q) := by
  simp only [or_loop, h0]
  rfl

theorem logic_and_step (fuel : Nat) (p q : Prs) (e : Expr)
    (hsub : equality fuel p = (.ok e, q)) :
    logic_and (fuel+1) p = and_loop fuel e q := by
  simp only [logic_and, hsub, obind]

theorem and_loop_exit (fuel : Nat) (e : Expr) (q : Prs)
    (h0 : q.match_token .And = (false, q)) :
    and_loop (fuel+1) e q = (.ok e, q) := by
  simp only [and_loop, h0]
  rfl

theorem equality_step (fuel : Nat) (p q : Prs) (e : Expr)
    (hsub : comparison fuel p = (.ok e, q)) :
    equality (fuel+1) p = eq_loop fuel e q := by
  simp only [equality, hsub, obind]

theorem eq_loop_exit (fuel : Nat) (e : Expr) (q : Prs)
    (h1 : q.match_token .BangEqual = (false, q))
    (h2 : q.match_token .EqualEqual = (false, q)) :
    eq_loop (fuel+1) e q = (.ok e, q) := by
  simp only [eq_loop, Prs.match_tokens, h1, h2]
  rfl

theorem comparison_step (fuel : Nat) (p q : Prs) (e : Expr)
    (hsub : term fuel p = (.ok e, q)) :
    comparison (fuel+1) p = cmp_loop fuel e q := by
  simp only [comparison, hsub, obind]

set_option maxHeartbeats 1600000 in
theorem cmp_loop_exit (fuel : Nat) (e : Expr) (q : Prs)
    (h1 : q.match_token .Greater = (false, q))
    (h2 : q.match_token .GreaterEqual = (false, q))
    (h3 : q.match_token .Less = (false, q))
    (h4 : q.match_token .LessEqual = (false, q)) :
    cmp_loop (fuel+1) e q = (.ok e, q) := by
  simp only [cmp_loop, Prs.match_tokens, h1, h2, h3, h4]
  rfl

theorem term_step (fuel : Nat) (p q : Prs) (e : Expr)
    (hsub : factor fuel p = (.ok e, q)) :
    term (fuel+1) p = term_loop fuel e q := by
  simp only [term, hsub, obind]

theorem term_loop_exit (fuel : Nat) (e : Expr) (q : Prs)
    (h1 : q.match_token .Minus = (false, q))
    (h2 : q.match_token .Plus = (false, q)) :
    term_loop (fuel+1) e q = (.ok e, q) := by
  simp only [term_loop, Prs.match_tokens, h1, h2]
  rfl

theorem factor_step (fuel : Nat) (p q : Prs) (e : Expr)
    (hsub : unary fuel p = (.ok e, q)) :
    factor (fuel+1) p = factor_loop fuel e q := by
  simp only [factor, hsub, obind]

theorem factor_loop_exit (fuel : Nat) (e : Expr) (q : Prs)
    (h1 : q.match_token .Slash = (false, q))
    (h2 : q.match_token .Star = (false, q)) :
    factor_loop (fuel+1) e q = (.ok e, q) := by
  simp only [factor_loop, Prs.match_tokens, h1, h2]
  rfl

theorem unary_step (fuel : Nat) (p : Prs)
    (h1 : p.match_token .Bang = (false, p))
    (h2 : p.match_token .Minus = (false, p)) :
    unary (fuel+1) p = call fuel p := by
  simp only [unary, Prs.match_tokens, h1, h2]
  rfl

theorem call_step (fuel : Nat) (p q : Prs) (e : Expr)
    (hsub : primary fuel p = (.ok e, q)) :
    call (fuel+1) p = call_loop fuel e q := by
  simp only [call, hsub, obind]

theorem call_loop_exit (fuel : Nat) (e : Expr) (q : Prs)
    (h0 : q.match_token .LeftParen = (false, q)) :
    call_loop (fuel+1) e q = (.ok e, q) := by
  simp only [call_loop, h0]
  rfl

theorem primary_ident (fuel : Nat) (p : Prs) (x : Token) (rest : List Token)
    (hd : p.tokens.drop p.current = x :: rest)
    (hx : x.token_type = .Identifier) :
    primary (fuel+1) p = (.ok (.Variable x), { p with current := p.current + 1 }) := by
  have hpeek : p.peek = x := by
    rw [Prs.peek, getD_eq_headD_drop, hd]
    rfl
  have hne : p.is_at_end = false := by
    rw [Prs.is_at_end, hpeek, hx]
    rfl
  have hadv : p.advance = (({ p with current := p.current + 1 } : Prs).previous,
      { p with current := p.current + 1 }) := by
    rw [Prs.advance, hne]
    simp
  have hprev1 : ({ p with current := p.current + 1 } : Prs).previous = x := by
    rw [Prs.previous]
    simp only [Nat.add_sub_cancel]
    rw [getD_eq_headD_drop, hd]
    rfl
  simp only [primary, hpeek, hx]
  simp only [hadv, hprev1]

/-- Parsing a single identifier argument: with the next token a `,` or `)`,
every precedence level falls through and `expression` consumes exactly the
identifier. The fuel cost of the descent is exactly 12. -/
theorem expr_one_ident (k : Nat) (p : Prs) (x : Token) (rest : List Token)
    (hd : p.tokens.drop p.current = x :: rest)
    (hx : x.token_type = .Identifier)
    (hn : (rest.headD eof_token).token_type = .Comma ∨
          (rest.headD eof_token).token_type = .RightParen) :
    expression (k+12) p = (.ok (.Variable x), { p with current := p.current + 1 }) := by
  have hpeek : p.peek = x := by
    rw [Prs.peek, getD_eq_headD_drop, hd]
    rfl
  have hne : p.is_at_end = false := by
    rw [Prs.is_at_end, hpeek, hx]
    rfl
  have hdrop1 : p.tokens.drop (p.current + 1) = rest := by
    have h2 := congrArg List.tail hd
    rw [List.tail_drop] at h2
    simpa using h2
  have hpeek1 : ({ p with current := p.current + 1 } : Prs).peek = rest.headD eof_token := by
    rw [Prs.peek, getD_eq_headD_drop]
    simp only []
    rw [hdrop1]
  have hne1 : ({ p with current := p.current + 1 } : Prs).is_at_end = false := by
    rw [Prs.is_at_end, hpeek1]
    rcases hn with h | h <;> rw [h] <;> rfl
  have hcmp : ∀ τ : TokenType, ¬(τ = .Comma) → ¬(τ = .RightParen) →
      (((rest.headD eof_token).token_type) == τ) = false := by
    intro τ h1 h2
    rcases hn with h | h <;> rw [h] <;> rw [beq_eq_false_iff_ne]
    · exact fun he => h1 he.symm
    · exact fun he => h2 he.symm
  have hmt : ∀ τ : TokenType, ¬(τ = .Comma) → ¬(τ = .RightParen) →
      Prs.match_token { p with current := p.current + 1 } τ =
        (false, { p with current := p.current + 1 }) := by
    intro τ h1 h2
    simp only [Prs.match_token, hne1, Bool.false_eq_true, if_false, hpeek1, hcmp τ h1 h2]
  have hmt0 : ∀ τ : TokenType, ¬(τ = .Identifier) →
      Prs.match_token p τ = (false, p) := by
    intro τ h1
    simp only [Prs.match_token, hne, Bool.false_eq_true, if_false, hpeek, hx]
    rw [show ((TokenType.Identifier == τ) = false) from beq_eq_false_iff_ne.mpr
      (fun he => h1 he.symm)]
    simp
  have hprim := primary_ident (k+1) p x rest hd hx
  have hcall : call (k+3) p = (.ok (.Variable x), { p with current := p.current + 1 }) :=
    (call_step (k+2) p _ _ hprim).trans
      (call_loop_exit (k+1) _ _ (hmt .LeftParen (by simp) (by simp)))
  have hunary : unary (k+4) p = (.ok (.Variable x), { p with current := p.current + 1 }) :=
    (unary_step (k+3) p (hmt0 .Bang (by simp)) (hmt0 .Minus (by simp))).trans hcall
  have hfactor : factor (k+5) p = (.ok (.Variable x), { p with current := p.current + 1 }) :=
    (factor_step (k+4) p _ _ hunary).trans
      (factor_loop_exit (k+3) _ _ (hmt .Slash (by simp) (by simp)) (hmt .Star (by simp) (by simp)))
  have hterm : term (k+6) p = (.ok (.Variable x), { p with current := p.current + 1 }) :=
    (term_step (k+5) p _ _ hfactor).trans
      (term_loop_exit (k+4) _ _ (hmt .Minus (by simp) (by simp)) (hmt .Plus (by simp) (by simp)))
  have hcmp2 : comparison (k+7) p = (.ok (.Variable x), { p with current := p.current + 1 }) :=
    (comparison_step (k+6) p _ _ hterm).trans
      (cmp_loop_exit (k+5) _ _ (hmt .Greater (by simp) (by simp))
        (hmt .GreaterEqual (by simp) (by simp)) (hmt .Less (by simp) (by simp))
        (hmt .LessEqual (by simp) (by simp)))
  have heq2 : equality (k+8) p = (.ok (.Variable x), { p with current := p.current + 1 }) :=
    (equality_step (k+7) p _ _ hcmp2).trans
      (eq_loop_exit (k+6) _ _ (hmt .BangEqual (by simp) (by simp))
        (hmt .EqualEqual (by simp) (by simp)))
  have hand : logic_and (k+9) p = (.ok (.Variable x), { p with current := p.current + 1 }) :=
    (logic_and_step (k+8) p _ _ heq2).trans
      (and_loop_exit (k+7) _ _ (hmt .And (by simp) (by simp)))
  have hor : logic_or (k+10) p = (.ok (.Variable x), { p with current := p.current + 1 }) :=
    (logic_or_step (k+9) p _ _ hand).trans
      (or_loop_exit (k+8) _ _ (hmt .Or (by simp) (by simp)))
  have hassign : assignment (k+11) p = (.ok (.Variable x), { p with current := p.current + 1 }) :=
    assignment_step (k+10) p _ _ hor (hmt .Equal (by simp) (by simp))
  exact (expression_step (k+11) p).trans hassign

theorem match_token_miss (q : Prs) (τ : TokenType) (h : ¬(q.peek.token_type = τ)) :
    q.match_token τ = (false, q) := by
  rw [Prs.match_token]
  by_cases he : q.is_at_end = true
  · rw [if_pos he]
  · rw [if_neg he, if_neg]
    simp only [beq_iff_eq]
    exact h

theorem match_token_hit (q : Prs) (t : Token) (rest : List Token)
    (hd : q.tokens.drop q.current = t :: rest) (hne_eof : ¬(t.token_type = .Eof)) :
    q.match_token t.token_type = (true, { q with current := q.current + 1 }) := by
  have hpeek : q.peek = t := by
    rw [Prs.peek, getD_eq_headD_drop, hd]
    rfl
  have hne : q.is_at_end = false := by
    rw [Prs.is_at_end, hpeek]
    exact beq_eq_false_iff_ne.mpr hne_eof
  rw [Prs.match_token, hne]
  simp only [Bool.false_eq_true, if_false, hpeek, beq_self_eq_true, if_true]
  rw [Prs.advance, hne]
  rfl

theorem consume_hit (q : Prs) (t : Token) (rest : List Token) (msg : String)
    (hd : q.tokens.drop q.current = t :: rest) (hne_eof : ¬(t.token_type = .Eof)) :
    q.consume t.token_type msg = (.ok t, { q with current := q.current + 1 }) := by
  have hpeek : q.peek = t := by
    rw [Prs.peek, getD_eq_headD_drop, hd]
    rfl
  have hne : q.is_at_end = false := by
    rw [Prs.is_at_end, hpeek]
    exact beq_eq_false_iff_ne.mpr hne_eof
  rw [Prs.consume]
  simp only [hpeek, beq_self_eq_true, if_true]
  rw [Prs.advance, hne]
  have hprev : ({ q with current := q.current + 1 } : Prs).previous = t := by
    rw [Prs.previous]
    simp only [Nat.add_sub_cancel]
    rw [getD_eq_headD_drop, hd]
    rfl
  simp only [hprev]
  rfl

/-- One unfolding of the `finish_call` argument loop, stated with a
variable fuel. -/
theorem fc_loop_step (fuel : Nat) (args : List Expr) (p : Prs) :
    fc_loop (fuel+1) args p = obind (expression fuel p) (fun arg p =>
      if (args ++ [arg]).length ≥ 255 then
        (.err ("line: " ++ Nat.repr p.peek.line_num ++ " cannot have more than 255 arguments"), p)
      else
        if (p.match_token .Comma).1 then fc_loop fuel (args ++ [arg]) (p.match_token .Comma).2
        else (.ok (args ++ [arg]), (p.match_token .Comma).2)) := by
  simp only [fc_loop]

/-- The argument loop accepts `d` further identifier arguments (ending at
`)`) as long as the running total stays at or below 254, consuming `2d-1`
tokens. -/
theorem fc_loop_ok (d : Nat) : ∀ (k : Nat) (args : List Expr) (p : Prs) (rest : List Token),
    p.tokens.drop p.current = arg_toks d ++ ⟨.RightParen, ")", none, 1⟩ :: rest →
    1 ≤ d → args.length + d ≤ 254 →
    fc_loop (13*d + k + 13) args p =
      (.ok (args ++ List.replicate d (.Variable ⟨.Identifier, "x", none, 1⟩)),
       { p with current := p.current + (2*d - 1) }) := by
  induction d with
  | zero => intro k args p rest _ h1 _; exact absurd h1 (by omega)
  | succ d ih =>
    intro k args p rest hd h1 hle
    cases d with
    | zero =>
      have hd' : p.tokens.drop p.current =
          (⟨.Identifier, "x", none, 1⟩ : Token) ::
            ((⟨.RightParen, ")", none, 1⟩ : Token) :: rest) := by
        simpa [arg_toks] using hd
      have hfe : (13 * 1 + k + 13) = (k + 25) + 1 := by omega
      rw [hfe, fc_loop_step]
      have he := expr_one_ident (k+13) p _ _ hd' rfl (Or.inr rfl)
      have hfe2 : k + 13 + 12 = k + 25 := by omega
      rw [hfe2] at he
      rw [he]
      simp only [obind]
      rw [if_neg (by simp only [List.length_append, List.length_cons, List.length_nil]; omega)]
      have hdrop1 : p.tokens.drop (p.current + 1) =
          (⟨.RightParen, ")", none, 1⟩ : Token) :: rest := by
        have h2 := congrArg List.tail hd'
        rw [List.tail_drop] at h2
        simpa using h2
      have hmiss : Prs.match_token { p with current := p.current + 1 } .Comma =
          (false, { p with current := p.current + 1 }) := by
        apply match_token_miss
        rw [Prs.peek, getD_eq_headD_drop]
        simp only []
        rw [hdrop1]
        simp
      simp only [hmiss]
      simp [List.replicate]
    | succ d' =>
      have hd' : p.tokens.drop p.current =
          (⟨.Identifier, "x", none, 1⟩ : Token) ::
            ((⟨.Comma, ",", none, 1⟩ : Token) ::
              (arg_toks (d'+1) ++ (⟨.RightParen, ")", none, 1⟩ : Token) :: rest)) := by
        simpa [arg_toks] using hd
      have hfe : (13 * (d'+1+1) + k + 13) = (13*(d'+1) + k + 25) + 1 := by omega
      rw [hfe, fc_loop_step]
      have he := expr_one_ident (13*(d'+1)+k+13) p _ _ hd' rfl (Or.inl rfl)
      have hfe2 : 13*(d'+1)+k+13+12 = 13*(d'+1)+k+25 := by omega
      rw [hfe2] at he
      rw [he]
      simp only [obind]
      rw [if_neg (by simp only [List.length_append, List.length_cons, List.length_nil]; omega)]
      have hdrop1 : p.tokens.drop (p.current + 1) =
          (⟨.Comma, ",", none, 1⟩ : Token) ::
            (arg_toks (d'+1) ++ (⟨.RightParen, ")", none, 1⟩ : Token) :: rest) := by
        have h2 := congrArg List.tail hd'
        rw [List.tail_drop] at h2
        simpa using h2
      have hhit := match_token_hit { p with current := p.current + 1 }
        ⟨.Comma, ",", none, 1⟩ _ hdrop1 (by simp)
      simp only [hhit]
      have hdrop2 : p.tokens.drop (p.current + 1 + 1) =
          arg_toks (d'+1) ++ (⟨.RightParen, ")", none, 1⟩ : Token) :: rest := by
        have h2 := congrArg List.tail hdrop1
        rw [List.tail_drop] at h2
        simpa using h2
      have hfe3 : 13*(d'+1)+k+25 = 13*(d'+1) + (k+12) + 13 := by omega
      rw [hfe3]
      have hih := ih (k+12) (args ++ [.Variable ⟨.Identifier, "x", none, 1⟩])
        { p with current := p.current + 1 + 1 } rest hdrop2 (by omega)
        (by simp only [List.length_append, List.length_cons, List.length_nil]; omega)
      simp only [] at hih ⊢
      rw [hih]
      have hl : (args ++ [Expr.Variable ⟨.Identifier, "x", none, 1⟩]) ++
          List.replicate (d'+1) (Expr.Variable ⟨.Identifier, "x", none, 1⟩) =
          args ++ List.replicate (d'+1+1) (Expr.Variable ⟨.Identifier, "x", none, 1⟩) := by
        rw [List.append_assoc]
        rfl
      have harith : p.current + 1 + 1 + (2 * (d' + 1) - 1) = p.current + (2 * (d' + 1 + 1) - 1) := by
        omega
      rw [hl, harith]
      simp

/-- When the running argument total reaches 255 (after `d` more arguments,
with enough arguments available), the loop stops with the argument-count
error; the check fires right after the 255th push. -/
theorem fc_loop_err (d : Nat) : ∀ (k n : Nat) (args : List Expr) (p : Prs) (rest : List Token),
    p.tokens.drop p.current = arg_toks n ++ ⟨.RightParen, ")", none, 1⟩ :: rest →
    1 ≤ d → d ≤ n → args.length + d = 255 →
    fc_loop (13*d + k + 13) args p =
      (.err "line: 1 cannot have more than 255 arguments",
       { p with current := p.current + (2*d - 1) }) := by
  induction d with
  | zero => intro k n args p rest _ h1 _ _; exact absurd h1 (by omega)
  | succ d ih =>
    intro k n args p rest hd h1 hdn hlen
    cases d with
    | zero =>
      have hfe : (13 * 1 + k + 13) = (k + 25) + 1 := by omega
      rw [hfe, fc_loop_step]
      cases n with
      | zero => exact absurd hdn (by omega)
      | succ n' =>
        cases n' with
        | zero =>
          have hd' : p.tokens.drop p.current =
              (⟨.Identifier, "x", none, 1⟩ : Token) ::
                ((⟨.RightParen, ")", none, 1⟩ : Token) :: rest) := by
            simpa [arg_toks] using hd
          have he := expr_one_ident (k+13) p _ _ hd' rfl (Or.inr rfl)
          have hfe2 : k + 13 + 12 = k + 25 := by omega
          rw [hfe2] at he
          rw [he]
          simp only [obind]
          rw [if_pos (by simp only [List.length_append, List.length_cons, List.length_nil]; omega)]
          have hdrop1 : p.tokens.drop (p.current + 1) =
              (⟨.RightParen, ")", none, 1⟩ : Token) :: rest := by
            have h2 := congrArg List.tail hd'
            rw [List.tail_drop] at h2
            simpa using h2
          have hpk : ({ p with current := p.current + 1 } : Prs).peek =
              (⟨.RightParen, ")", none, 1⟩ : Token) := by
            rw [Prs.peek, getD_eq_headD_drop]
            simp only []
            rw [hdrop1]
            rfl
          rw [hpk]
          rfl
        | succ n'' =>
          have hd' : p.tokens.drop p.current =
              (⟨.Identifier, "x", none, 1⟩ : Token) ::
                ((⟨.Comma, ",", none, 1⟩ : Token) ::
                  (arg_toks (n''+1) ++ (⟨.RightParen, ")", none, 1⟩ : Token) :: rest)) := by
            simpa [arg_toks] using hd
          have he := expr_one_ident (k+13) p _ _ hd' rfl (Or.inl rfl)
          have hfe2 : k + 13 + 12 = k + 25 := by omega
          rw [hfe2] at he
          rw [he]
          simp only [obind]
          rw [if_pos (by simp only [List.length_append, List.length_cons, List.length_nil]; omega)]
          have hdrop1 : p.tokens.drop (p.current + 1) =
              (⟨.Comma, ",", none, 1⟩ : Token) ::
                (arg_toks (n''+1) ++ (⟨.RightParen, ")", none, 1⟩ : Token) :: rest) := by
            have h2 := congrArg List.tail hd'
            rw [List.tail_drop] at h2
            simpa using h2
          have hpk : ({ p with current := p.current + 1 } : Prs).peek =
              (⟨.Comma, ",", none, 1⟩ : Token) := by
            rw [Prs.peek, getD_eq_headD_drop]
            simp only []
            rw [hdrop1]
            rfl
          rw [hpk]
          rfl
    | succ d' =>
      cases n with
      | zero => exact absurd hdn (by omega)
      | succ n' =>
        cases n' with
        | zero => exact absurd hdn (by omega)
        | succ n'' =>
          have hd' : p.tokens.drop p.current =
              (⟨.Identifier, "x", none, 1⟩ : Token) ::
                ((⟨.Comma, ",", none, 1⟩ : Token) ::
                  (arg_toks (n''+1) ++ (⟨.RightParen, ")", none, 1⟩ : Token) :: rest)) := by
            simpa [arg_toks] using hd
          have hfe : (13 * (d'+1+1) + k + 13) = (13*(d'+1) + k + 25) + 1 := by omega
          rw [hfe, fc_loop_step]
          have he := expr_one_ident (13*(d'+1)+k+13) p _ _ hd' rfl (Or.inl rfl)
          have hfe2 : 13*(d'+1)+k+13+12 = 13*(d'+1)+k+25 := by omega
          rw [hfe2] at he
          rw [he]
          simp only [obind]
          rw [if_neg (by simp only [List.length_append, List.length_cons, List.length_nil]; omega)]
          have hdrop1 : p.tokens.drop (p.current + 1) =
              (⟨.Comma, ",", none, 1⟩ : Token) ::
                (arg_toks (n''+1) ++ (⟨.RightParen, ")", none, 1⟩ : Token) :: rest) := by
            have h2 := congrArg List.tail hd'
            rw [List.tail_drop] at h2
            simpa using h2
          have hhit := match_token_hit { p with current := p.current + 1 }
            ⟨.Comma, ",", none, 1⟩ _ hdrop1 (by simp)
          simp only [hhit]
          have hdrop2 : p.tokens.drop (p.current + 1 + 1) =
              arg_toks (n''+1) ++ (⟨.RightParen, ")", none, 1⟩ : Token) :: rest := by
            have h2 := congrArg List.tail hdrop1
            rw [List.tail_drop] at h2
            simpa using h2
          have hfe3 : 13*(d'+1)+k+25 = 13*(d'+1) + (k+12) + 13 := by omega
          rw [hfe3]
          have hih := ih (k+12) (n''+1) (args ++ [.Variable ⟨.Identifier, "x", none, 1⟩])
            { p with current := p.current + 1 + 1 } rest hdrop2 (by omega) (by omega)
            (by simp only [List.length_append, List.length_cons, List.length_nil]; omega)
          simp only [] at hih ⊢
          rw [hih]
          have harith : p.current + 1 + 1 + (2 * (d' + 1) - 1) = p.current + (2 * (d' + 1 + 1) - 1) := by
            omega
          rw [harith]
          simp

theorem finish_call_step (fuel : Nat) (callee : Expr) (p : Prs) :
    finish_call (fuel+1) callee p =
      obind (if p.check .RightParen then (.ok [], p) else fc_loop fuel [] p) (fun args p =>
        obind (p.consume .RightParen "Expect \x27)\x27 after function arguments") (fun _ p =>
          (.ok (.Call callee ⟨.LeftParen, "", none, 0⟩ args), p))) := by
  simp only [finish_call]

theorem arg_toks_cons : ∀ (m : Nat) (X : List Token), 1 ≤ m →
    ∃ t, arg_toks m ++ X = (⟨.Identifier, "x", none, 1⟩ : Token) :: t := by
  intro m X hm
  cases m with
  | zero => exact absurd hm (by omega)
  | succ m' =>
    cases m' with
    | zero => exact ⟨X, rfl⟩
    | succ m'' => exact ⟨_, rfl⟩

theorem arg_toks_length : ∀ m : Nat, 1 ≤ m → (arg_toks m).length = 2*m - 1 := by
  intro m
  induction m with
  | zero => intro hm; exact absurd hm (by omega)
  | succ m' ih =>
    intro _
    cases m' with
    | zero => rfl
    | succ m'' =>
      have := ih (by omega)
      simp only [arg_toks, List.length_cons, this]
      omega

theorem mk_call_tokens_drop2 (n : Nat) :
    (mk_call_tokens n).drop 2 = arg_toks n ++
      (⟨.RightParen, ")", none, 1⟩ : Token) ::
        [(⟨.SemiColon, ";", none, 1⟩ : Token), (⟨.Eof, "", none, 1⟩ : Token)] := by
  simp [mk_call_tokens]

theorem finish_call_overflow (n k : Nat) (callee : Expr) (h255 : 255 ≤ n) :
    finish_call (13*255 + k + 14) callee ⟨mk_call_tokens n, 2⟩ =
      (.err "line: 1 cannot have more than 255 arguments",
       ⟨mk_call_tokens n, 2 + (2*255 - 1)⟩) := by
  have h1 : 1 ≤ n := by omega
  have hfe : 13*255 + k + 14 = (13*255 + k + 13) + 1 := by omega
  rw [hfe, finish_call_step]
  have hd2 := mk_call_tokens_drop2 n
  obtain ⟨t, ht⟩ := arg_toks_cons n _ h1
  have hpeek : (⟨mk_call_tokens n, 2⟩ : Prs).peek = ⟨.Identifier, "x", none, 1⟩ := by
    rw [Prs.peek, getD_eq_headD_drop]
    simp only []
    rw [hd2, ht]
    rfl
  rw [if_neg (by rw [Prs.check, hpeek]; simp)]
  have hloop := fc_loop_err 255 k n [] ⟨mk_call_tokens n, 2⟩
    [(⟨.SemiColon, ";", none, 1⟩ : Token), (⟨.Eof, "", none, 1⟩ : Token)]
    (by simp only []; rw [hd2]) (by omega) h255 (by simp)
  rw [hloop]
  simp only [obind]

theorem claim_C3 (n k : Nat) (callee : Expr) :
    (1 ≤ n → n ≤ 254 →
      finish_call (13*n + k + 14) callee ⟨mk_call_tokens n, 2⟩ =
        (.ok (.Call callee ⟨.LeftParen, "", none, 0⟩
           (List.replicate n (.Variable ⟨.Identifier, "x", none, 1⟩))),
         ⟨mk_call_tokens n, 2*n + 2⟩)) ∧
    (finish_call (k+1) callee ⟨mk_call_tokens 0, 2⟩ =
      (.ok (.Call callee ⟨.LeftParen, "", none, 0⟩ []), ⟨mk_call_tokens 0, 3⟩)) ∧
    (255 ≤ n →
      finish_call (13*255 + k + 14) callee ⟨mk_call_tokens n, 2⟩ =
        (.err "line: 1 cannot have more than 255 arguments",
         ⟨mk_call_tokens n, 2 + (2*255 - 1)⟩)) := by
  refine ⟨?_, ?_, ?_⟩
  · intro h1 h254
    have hfe : 13*n + k + 14 = (13*n + k + 13) + 1 := by omega
    rw [hfe, finish_call_step]
    have hd2 := mk_call_tokens_drop2 n
    obtain ⟨t, ht⟩ := arg_toks_cons n _ h1
    have hd2' : (⟨mk_call_tokens n, 2⟩ : Prs).tokens.drop (⟨mk_call_tokens n, 2⟩ : Prs).current =
        (⟨.Identifier, "x", none, 1⟩ : Token) :: t := by
      simp only []
      rw [hd2, ht]
    have hpeek : (⟨mk_call_tokens n, 2⟩ : Prs).peek = ⟨.Identifier, "x", none, 1⟩ := by
      rw [Prs.peek, getD_eq_headD_drop]
      simp only []
      rw [hd2] at hd2' ⊢
      rw [ht]
      rfl
    rw [if_neg (by rw [Prs.check, hpeek]; simp)]
    have hloop := fc_loop_ok n k [] ⟨mk_call_tokens n, 2⟩
      [(⟨.SemiColon, ";", none, 1⟩ : Token), (⟨.Eof, "", none, 1⟩ : Token)]
      (by simp only []; rw [hd2]) h1 (by simp; omega)
    rw [hloop]
    simp only [obind, List.nil_append]
    have hdropc : (mk_call_tokens n).drop (2 + (2*n - 1)) =
        (⟨.RightParen, ")", none, 1⟩ : Token) ::
          [(⟨.SemiColon, ";", none, 1⟩ : Token), (⟨.Eof, "", none, 1⟩ : Token)] := by
      have hlen := arg_toks_length n h1
      have : 2 + (2*n - 1) = 2 + (arg_toks n).length := by omega
      rw [this, ← List.drop_drop, hd2]
      simp [List.drop_append]
    have hcons := consume_hit ⟨mk_call_tokens n, 2 + (2*n - 1)⟩ ⟨.RightParen, ")", none, 1⟩
      [(⟨.SemiColon, ";", none, 1⟩ : Token), (⟨.Eof, "", none, 1⟩ : Token)]
      "Expect \x27)\x27 after function arguments" (by simp only []; exact hdropc) (by simp)
    simp only [] at hcons
    rw [hcons]
    simp only [obind]
    have harith : 2 + (2*n - 1) + 1 = 2*n + 2 := by omega
    rw [harith]
  · rw [show k + 1 = k + 1 from rfl, finish_call_step]
    rfl
  · exact finish_call_overflow n k callee

theorem claim_C3_counterexample :
    (finish_call (13*255 + 0 + 14) (.Variable ⟨.Identifier, "f", none, 1⟩)
        ⟨mk_call_tokens 255, 2⟩).1 =
      .err "line: 1 cannot have more than 255 arguments" := by
  rw [finish_call_overflow 255 0 (.Variable ⟨.Identifier, "f", none, 1⟩) (by omega)]

theorem claim_C3_witness :
    finish_call 40 (.Variable ⟨.Identifier, "f", none, 1⟩) ⟨mk_call_tokens 2, 2⟩ =
      (.ok (.Call (.Variable ⟨.Identifier, "f", none, 1⟩) ⟨.LeftParen, "", none, 0⟩
         (List.replicate 2 (.Variable ⟨.Identifier, "x", none, 1⟩))),
       ⟨mk_call_tokens 2, 6⟩) :=
  (claim_C3 2 0 (.Variable ⟨.Identifier, "f", none, 1⟩)).1 (by omega) (by omega)
